import Mathlib

/-
Shallow embedding of the knix chess rules engine (Rust sources under src/).

Modelling conventions:
* Rust panics (out-of-bounds slice indexing, `Option::unwrap`, the panicking
  `Add` impl for `BoardIndex + BoardIndexDelta`) are modelled by returning
  `none` from an `Option`-valued function.
* Machine integers are modelled as `Nat` / `Int` with explicit `% 2^w`
  where the Rust release-mode wrapping semantics matters (u8 additions and
  subtractions, the i8 arithmetic inside `unchecked_add`).
* Strings are modelled as `List Char`; `str::split` is `splitOnChar`.
-/

namespace Knix

set_option maxRecDepth 8192

/-- Splits a character list at every occurrence of `sep`, mirroring Rust's
`str::split` (the result always has one more part than separators; an empty
input gives `[[]]`). -/
def splitOnChar (sep : Char) : List Char → List (List Char)
| [] => [[]]
| c :: rest =>
  if c = sep then [] :: splitOnChar sep rest
  else
    match splitOnChar sep rest with
    | [] => [[c]]
    | g :: gs => (c :: g) :: gs

/-- Joins character lists with the separator, the inverse direction of
`splitOnChar`; mirrors how `Board::to_fen` interleaves `'/'` between ranks. -/
def intercalateChar (sep : Char) : List (List Char) → List Char
| [] => []
| [g] => g
| g :: g' :: gs => g ++ sep :: intercalateChar sep (g' :: gs)

/-- Fuel-driven digit emitter behind `natToChars` (structural recursion so
that the kernel can evaluate it; the fuel is always sufficient since a
number's digit count is at most the number itself). -/
def natToCharsAux : Nat → Nat → List Char
| 0, _ => []
| fuel + 1, n =>
  if n < 10 then [Char.ofNat (48 + n)]
  else natToCharsAux fuel (n / 10) ++ [Char.ofNat (48 + n % 10)]

/-- Decimal representation of a natural number, as produced by Rust's
`Display` for unsigned integers (`write!("{n}")`). -/
def natToChars (n : Nat) : List Char := natToCharsAux (n + 1) n

/-- Accumulating loop of Rust's unsigned-integer `from_str`: consumes decimal
digits left to right; any non-digit character fails the parse. -/
def parseDigitsLoop : List Char → Nat → Option Nat
| [], acc => some acc
| c :: rest, acc =>
  if 48 ≤ c.toNat ∧ c.toNat ≤ 57 then
    parseDigitsLoop rest (acc * 10 + (c.toNat - 48))
  else none

/-- Rust `str::parse` for an unsigned integer type with maximum value `bound`:
an optional leading '+', then at least one digit, and the value must fit
(overflow is reported as an error, modelled by the `bound` comparison on the
exact value). -/
def parseUnsigned (bound : Nat) (cs : List Char) : Option Nat :=
  let cs' := match cs with
             | c :: rest => if c = '+' then rest else cs
             | [] => cs
  match cs' with
  | [] => none
  | _ =>
    match parseDigitsLoop cs' 0 with
    | none => none
    | some v => if v ≤ bound then some v else none

/-- PieceColor from src/src/piece.rs. -/
inductive PieceColor
| White
| Black
deriving DecidableEq, Repr

/-- PieceColor::other. -/
def PieceColor.other : PieceColor → PieceColor
| .Black => .White
| .White => .Black

/-- BoardPieceKind from src/src/piece.rs. -/
inductive BoardPieceKind
| Pawn
| Rook
| Knight
| Bishop
| Queen
| King
deriving DecidableEq, Repr

/-- BoardPiece from src/src/piece.rs (discriminant values 1..6 and 9..14). -/
inductive BoardPiece
| WhitePawn
| WhiteRook
| WhiteKnight
| WhiteBishop
| WhiteQueen
| WhiteKing
| BlackPawn
| BlackRook
| BlackKnight
| BlackBishop
| BlackQueen
| BlackKing
deriving DecidableEq, Repr

/-- The `repr(u8)` discriminant of a BoardPiece. -/
def BoardPiece.reprVal : BoardPiece → Nat
| .WhitePawn => 1
| .WhiteRook => 2
| .WhiteKnight => 3
| .WhiteBishop => 4
| .WhiteQueen => 5
| .WhiteKing => 6
| .BlackPawn => 9
| .BlackRook => 10
| .BlackKnight => 11
| .BlackBishop => 12
| .BlackQueen => 13
| .BlackKing => 14

/-- Total decode of a nibble value to a piece; `BoardPiece::from_repr` is an
unchecked transmute in the source, only ever applied to values written by
`set_piece`, which are exactly the `reprVal`s below. Values outside the
domain decode to `none`. -/
def BoardPiece.fromRepr : Nat → Option BoardPiece
| 1 => some .WhitePawn
| 2 => some .WhiteRook
| 3 => some .WhiteKnight
| 4 => some .WhiteBishop
| 5 => some .WhiteQueen
| 6 => some .WhiteKing
| 9 => some .BlackPawn
| 10 => some .BlackRook
| 11 => some .BlackKnight
| 12 => some .BlackBishop
| 13 => some .BlackQueen
| 14 => some .BlackKing
| _ => none

/-- BoardPiece::split. -/
def BoardPiece.split : BoardPiece → BoardPieceKind × PieceColor
| .WhitePawn => (.Pawn, .White)
| .BlackPawn => (.Pawn, .Black)
| .WhiteRook => (.Rook, .White)
| .BlackRook => (.Rook, .Black)
| .WhiteKnight => (.Knight, .White)
| .BlackKnight => (.Knight, .Black)
| .WhiteBishop => (.Bishop, .White)
| .BlackBishop => (.Bishop, .Black)
| .WhiteQueen => (.Queen, .White)
| .BlackQueen => (.Queen, .Black)
| .WhiteKing => (.King, .White)
| .BlackKing => (.King, .Black)

/-- BoardPiece::kind. -/
def BoardPiece.kind (p : BoardPiece) : BoardPieceKind := p.split.1

/-- BoardPiece::color. -/
def BoardPiece.color (p : BoardPiece) : PieceColor := p.split.2

/-- PieceColor::king_of_color. -/
def PieceColor.kingOfColor : PieceColor → BoardPiece
| .White => .WhiteKing
| .Black => .BlackKing

/-- BoardPiece::to_fen_char (generated by the gen_fen! macro). -/
def BoardPiece.toFenChar : BoardPiece → Char
| .WhiteKing => 'K'
| .BlackKing => 'k'
| .WhiteQueen => 'Q'
| .BlackQueen => 'q'
| .WhiteBishop => 'B'
| .BlackBishop => 'b'
| .WhiteKnight => 'N'
| .BlackKnight => 'n'
| .WhiteRook => 'R'
| .BlackRook => 'r'
| .WhitePawn => 'P'
| .BlackPawn => 'p'

/-- BoardPiece::try_from_fen_char (generated by the gen_fen! macro). -/
def BoardPiece.tryFromFenChar : Char → Option BoardPiece
| 'K' => some .WhiteKing
| 'k' => some .BlackKing
| 'Q' => some .WhiteQueen
| 'q' => some .BlackQueen
| 'B' => some .WhiteBishop
| 'b' => some .BlackBishop
| 'N' => some .WhiteKnight
| 'n' => some .BlackKnight
| 'R' => some .WhiteRook
| 'r' => some .BlackRook
| 'P' => some .WhitePawn
| 'p' => some .BlackPawn
| _ => none

/-- BoardIndex from src/src/board_position.rs: a u8 position, by invariant in
[0,64); the invariant is not carried in the type because the unchecked
constructor can (buggily) be handed out-of-range values, which is exactly
what claim C8 is about. -/
structure BoardIndex where
  pos : Nat
deriving DecidableEq, Repr

/-- BoardIndex::new (checked constructor). -/
def BoardIndex.new (pos : Nat) : Option BoardIndex :=
  if pos < 64 then some ⟨pos⟩ else none

/-- BoardIndex::rank (1..8 for in-range indexes). -/
def BoardIndex.rank (i : BoardIndex) : Nat := i.pos / 8 + 1

/-- BoardIndex::file (1..8 for in-range indexes). -/
def BoardIndex.file (i : BoardIndex) : Nat := i.pos % 8 + 1

/-- BoardIndexDelta from src/src/board_position.rs; the two i8 components are
modelled as `Int` (all deltas the engine builds lie in [-14,14], where i8
and Int arithmetic agree). -/
structure BoardIndexDelta where
  deltaRank : Int
  deltaFile : Int
deriving DecidableEq, Repr

/-- BoardIndexDelta::delta_file. -/
def BoardIndexDelta.ofFile (df : Int) : BoardIndexDelta := ⟨0, df⟩

/-- BoardIndexDelta::delta_rank. -/
def BoardIndexDelta.ofRank (dr : Int) : BoardIndexDelta := ⟨dr, 0⟩

/-- BoardIndex::unchecked_add: `(self.pos as i8 + 8 * delta_rank + delta_file)
as u8`, i.e. the exact sum reduced mod 256 (release-mode wrapping of the
i8/u8 casts). -/
def BoardIndex.uncheckedAdd (i : BoardIndex) (d : BoardIndexDelta) : BoardIndex :=
  ⟨(((i.pos : Int) + 8 * d.deltaRank + d.deltaFile) % 256).toNat⟩

/-- BoardIndex::checked_add: bounds checks on rank and file, then the
unchecked addition. The source compares u8 casts of `-delta` and
`8 - delta`; for the delta ranges the engine uses those casts are
value-preserving, so the comparisons are stated over `Int`. -/
def BoardIndex.checkedAdd (i : BoardIndex) (d : BoardIndexDelta) : Option BoardIndex :=
  if d.deltaRank < 0 ∧ (i.rank : Int) ≤ -d.deltaRank then none
  else if d.deltaRank > 0 ∧ (i.rank : Int) > 8 - d.deltaRank then none
  else if d.deltaFile < 0 ∧ (i.file : Int) ≤ -d.deltaFile then none
  else if d.deltaFile > 0 ∧ (i.file : Int) > 8 - d.deltaFile then none
  else some (i.uncheckedAdd d)

/-- BoardColumn's char (uppercase), used by `Display for BoardPosition`; the
column is stored as its 1..8 index. Values outside 1..8 never occur (the
file of any u8 index is in 1..8). -/
def columnChar : Nat → Char
| 1 => 'A'
| 2 => 'B'
| 3 => 'C'
| 4 => 'D'
| 5 => 'E'
| 6 => 'F'
| 7 => 'G'
| 8 => 'H'
| _ => '?'

/-- BoardColumn::try_from_char (accepts both cases). -/
def columnFromChar : Char → Option Nat
| 'A' => some 1
| 'a' => some 1
| 'B' => some 2
| 'b' => some 2
| 'C' => some 3
| 'c' => some 3
| 'D' => some 4
| 'd' => some 4
| 'E' => some 5
| 'e' => some 5
| 'F' => some 6
| 'f' => some 6
| 'G' => some 7
| 'g' => some 7
| 'H' => some 8
| 'h' => some 8
| _ => none

/-- FromStr for BoardPosition followed by BoardPosition::to_index: a
2-character square name (column letter, row digit 1-8) mapped to the linear
index `(row-1)*8 + (column-1)`. -/
def boardIndexFromChars : List Char → Option BoardIndex
| [c1, c2] =>
  match columnFromChar c1 with
  | none => none
  | some col =>
    if 49 ≤ c2.toNat ∧ c2.toNat ≤ 56 then
      some ⟨(c2.toNat - 48 - 1) * 8 + (col - 1)⟩
    else none
| _ => none

/-- Display for BoardIndex: `BoardPosition::from_index` then
`"{column}{row}"` — an uppercase column letter followed by the decimal row. -/
def boardIndexToChars (i : BoardIndex) : List Char :=
  columnChar i.file :: natToChars i.rank

/-- BoardCellRepr::get_piece0 (high nibble of the byte; 0 means empty). -/
def getPiece0 (r : Nat) : Option BoardPiece :=
  if r &&& 0xF0 = 0 then none else BoardPiece.fromRepr (r >>> 4)

/-- BoardCellRepr::get_piece1 (low nibble of the byte; 0 means empty). -/
def getPiece1 (r : Nat) : Option BoardPiece :=
  if r &&& 0x0F = 0 then none else BoardPiece.fromRepr (r &&& 0x0F)

/-- BoardCellRepr::set_piece0: clear the high nibble, then OR in the piece's
discriminant shifted left by 4 (or nothing for an empty cell). -/
def setPiece0 (r : Nat) (p : Option BoardPiece) : Nat :=
  match p with
  | some p0 => (r &&& 0x0F) ||| (p0.reprVal <<< 4)
  | none => r &&& 0x0F

/-- BoardCellRepr::set_piece1: clear the low nibble, then OR in the piece's
discriminant (or nothing for an empty cell). -/
def setPiece1 (r : Nat) (p : Option BoardPiece) : Nat :=
  match p with
  | some p1 => (r &&& 0xF0) ||| p1.reprVal
  | none => r &&& 0xF0

/-- BoardCellBuffer::get_piece for a buffer stored as its list of bytes.
Index `pos` addresses the high nibble of byte `pos / 2` when even, the low
nibble when odd. All call sites pass indexes whose byte is within the
buffer, so the out-of-range read (a Rust panic) is modelled by the default
byte 0. -/
def bufGetPiece (repr : List Nat) (pos : Nat) : Option BoardPiece :=
  let b := repr.getD (pos / 2) 0
  if pos % 2 = 0 then getPiece0 b else getPiece1 b

/-- BoardCellBuffer::set_piece; writing to a byte outside the buffer is an
out-of-bounds slice store in Rust (a panic, and a violation of the
function's own debug assertion `cell < N`), modelled as `none`. -/
def bufSetPiece (repr : List Nat) (pos : Nat) (p : Option BoardPiece) : Option (List Nat) :=
  let cell := pos / 2
  if cell < repr.length then
    let b := repr.getD cell 0
    some (repr.set cell (if pos % 2 = 0 then setPiece0 b p else setPiece1 b p))
  else none

/-- BoardCellBuffer::iter_pieces: every index of the buffer paired with its
occupant, two indexes per byte, in ascending index order. -/
def iterPieces (repr : List Nat) : List (BoardIndex × Option BoardPiece) :=
  (List.range repr.length).flatMap fun idx =>
    let b := repr.getD idx 0
    [(⟨idx * 2⟩, getPiece0 b), (⟨idx * 2 + 1⟩, getPiece1 b)]

/-- Board from src/src/board.rs: a WholeBoardCellBuffer, i.e. 32 bytes packing
64 half-byte cells. -/
structure Board where
  repr : List Nat
deriving DecidableEq, Repr

/-- Board::empty_board / WholeBoardCellBuffer::init_empty. -/
def Board.emptyBoard : Board := ⟨List.replicate 32 0⟩

/-- Board::get_piece_at. -/
def Board.getPieceAt (b : Board) (i : BoardIndex) : Option BoardPiece :=
  bufGetPiece b.repr i.pos

/-- ParseBoardError from src/src/board.rs. -/
inductive ParseBoardError
| MissingRank (rank : Nat)
| MissingFilesInFEN (got : Nat) (fen : List Char)
| InvalidFENPieceChar (c : Char)
deriving DecidableEq, Repr

/-- The loop body of Board::parse_rank: digits 1-8 advance the file cursor,
any other character must decode to a piece, which is stored at the cursor
through the unchecked index path (the store panics — `none` — when the
cursor has run past the 4-byte rank buffer). The u8 cursor wraps mod 256. -/
def parseRankLoop : List Char → List Nat → Nat → Option (Except ParseBoardError (List Nat × Nat))
| [], cells, idx => some (.ok (cells, idx))
| c :: rest, cells, idx =>
  if 49 ≤ c.toNat ∧ c.toNat ≤ 56 then
    parseRankLoop rest cells ((idx + (c.toNat - 48)) % 256)
  else
    match BoardPiece.tryFromFenChar c with
    | none => some (.error (.InvalidFENPieceChar c))
    | some piece =>
      match bufSetPiece cells idx (some piece) with
      | none => none
      | some cells' => parseRankLoop rest cells' ((idx + 1) % 256)

/-- Board::parse_rank: run the loop over an empty 4-byte rank buffer, then
report MissingFilesInFEN when fewer than 8 files were described. -/
def Board.parseRank (fen : List Char) : Option (Except ParseBoardError (List Nat)) :=
  match parseRankLoop fen (List.replicate 4 0) 0 with
  | none => none
  | some (.error e) => some (.error e)
  | some (.ok (cells, idx)) =>
    if idx < 8 then some (.error (.MissingFilesInFEN idx fen)) else some (.ok cells)

/-- WholeBoardCellBuffer::copy_rank_from: overwrite bytes [4r, 4r+4) of the
board buffer with the rank buffer. -/
def copyRankInto (acc : List Nat) (r : Nat) (cells : List Nat) : List Nat :=
  acc.take (4 * r) ++ cells ++ acc.drop (4 * r + 4)

/-- The rank loop of Board::parse_from_fen: ranks 7 down to 0 are drawn from
the '/'-separated parts in order; a missing part is MissingRank, extra parts
are ignored. -/
def parseRanksLoop : List Nat → List (List Char) → List Nat → Option (Except ParseBoardError (List Nat))
| [], _, acc => some (.ok acc)
| r :: ranks, parts, acc =>
  match parts with
  | [] => some (.error (.MissingRank r))
  | p :: ps =>
    match Board.parseRank p with
    | none => none
    | some (.error e) => some (.error e)
    | some (.ok cells) => parseRanksLoop ranks ps (copyRankInto acc r cells)

/-- Board::parse_from_fen. -/
def Board.parseFromFen (fen : List Char) : Option (Except ParseBoardError Board) :=
  match parseRanksLoop ((List.range 8).reverse) (splitOnChar '/' fen) (List.replicate 32 0) with
  | none => none
  | some (.error e) => some (.error e)
  | some (.ok acc) => some (.ok ⟨acc⟩)

/-- The run-length emitter inside Board::to_fen, over one rank's cells in
file order with the count of empty files not yet written. -/
def emitRank : List (Option BoardPiece) → Nat → List Char
| [], 0 => []
| [], n + 1 => natToChars (n + 1)
| some p :: rest, 0 => p.toFenChar :: emitRank rest 0
| some p :: rest, n + 1 => natToChars (n + 1) ++ p.toFenChar :: emitRank rest 0
| none :: rest, n => emitRank rest (n + 1)

/-- WholeBoardCellBuffer::get_rank: the 4-byte slice of rank `r`. -/
def Board.getRank (b : Board) (r : Nat) : List Nat :=
  (b.repr.drop (4 * r)).take 4

/-- Board::to_fen: ranks 7 down to 0, each rank's cells run-length encoded,
joined with '/'. -/
def Board.toFen (b : Board) : List Char :=
  intercalateChar '/'
    (((List.range 8).reverse).map fun r =>
      emitRank ((iterPieces (b.getRank r)).map Prod.snd) 0)

/-- CastleRights from src/src/castle_rights.rs: a u8 bit set (modelled as a
`Nat` that stays below 256). -/
def CastleRights.WHITE_KING_SIDE : Nat := 1

/-- CastleRights::WHITE_QUEEN_SIDE. -/
def CastleRights.WHITE_QUEEN_SIDE : Nat := 2

/-- CastleRights::BLACK_KING_SIDE. -/
def CastleRights.BLACK_KING_SIDE : Nat := 4

/-- CastleRights::BLACK_QUEEN_SIDE. -/
def CastleRights.BLACK_QUEEN_SIDE : Nat := 8

/-- CastleRights::revoke: `rights &= !revoked` on u8, so the complement is
taken within 8 bits. -/
def CastleRights.revoke (rights revoked : Nat) : Nat :=
  rights &&& (revoked ^^^ 255)

/-- CastleRights::has_rights. -/
def CastleRights.hasRights (rights k : Nat) : Bool :=
  rights &&& k = k

/-- CastleRights::right_from_fen_char. -/
def CastleRights.rightFromFenChar : Char → Option Nat
| 'K' => some CastleRights.WHITE_KING_SIDE
| 'Q' => some CastleRights.WHITE_QUEEN_SIDE
| 'k' => some CastleRights.BLACK_KING_SIDE
| 'q' => some CastleRights.BLACK_QUEEN_SIDE
| _ => none

/-- The accumulation loop of CastleRights::rights_from_fen_str. -/
def rightsLoop : List Char → Nat → Option Nat
| [], total => some total
| c :: rest, total =>
  match CastleRights.rightFromFenChar c with
  | none => none
  | some right => rightsLoop rest (total ||| right)

/-- CastleRights::rights_from_fen_str: "-" is the empty set, otherwise each
character must be one of KQkq and the bits are unioned; the `none` result
stands for the InvalidCastleRight error (carrying the offending char in the
source). -/
def CastleRights.rightsFromFenStr (s : List Char) : Option Nat :=
  if s = ['-'] then some 0 else rightsLoop s 0

/-- EnPassantTarget::from_fen: "-" is no target; otherwise parse a square
name, and a malformed square silently becomes no target (`.ok()` in the
source discards the error). -/
def EnPassantTarget.fromFen (s : List Char) : Option BoardIndex :=
  if s = ['-'] then none else boardIndexFromChars s

/-- Move from src/src/piece_move.rs. The EnPassant variant's last field is
the EnPassantTarget (a newtype around BoardIndex in the source). -/
inductive Move
| Simple (start fin : BoardIndex)
| EnPassant (pawnDoingEnPassant pawnBeingCaptured enPassantTarget : BoardIndex)
| Castle (rookFrom rookTo kingFrom kingTo : BoardIndex)
deriving DecidableEq, Repr

/-- Move::from_delta: a Simple move to the checked sum, `None` off board. -/
def Move.fromDelta (pos : BoardIndex) (delta : BoardIndexDelta) : Option Move :=
  (pos.checkedAdd delta).map (Move.Simple pos)

/-- MoveInfo from src/src/piece_move.rs. -/
structure MoveInfo where
  movedPieceColor : PieceColor
  revokedCastleRights : Nat
  captured : Option BoardPiece
  pawnAdvanced : Bool
  newEnPassantTarget : Option BoardIndex
deriving DecidableEq, Repr

/-- MoveInfo::combine_composite. -/
def MoveInfo.combineComposite (mi mi2 : MoveInfo) : MoveInfo :=
  { movedPieceColor := mi.movedPieceColor
    captured := mi.captured.or mi2.captured
    revokedCastleRights := mi.revokedCastleRights ||| mi2.revokedCastleRights
    pawnAdvanced := mi.pawnAdvanced || mi2.pawnAdvanced
    newEnPassantTarget := mi.newEnPassantTarget.or mi2.newEnPassantTarget }

/-- The revoked-castle-rights computation of the `simple_move` closure in
Board::board_after_move: rook moves off a home corner revoke that side's
right, king moves revoke both of the color's rights. -/
def simpleMoveRevokedRights (piece : BoardPiece) (start : BoardIndex) : Nat :=
  match piece with
  | .WhiteRook =>
    match start.pos with
    | 0 => CastleRights.WHITE_QUEEN_SIDE
    | 7 => CastleRights.WHITE_KING_SIDE
    | _ => 0
  | .BlackRook =>
    match start.pos with
    | 56 => CastleRights.BLACK_QUEEN_SIDE
    | 63 => CastleRights.BLACK_KING_SIDE
    | _ => 0
  | .WhiteKing => CastleRights.WHITE_KING_SIDE ||| CastleRights.WHITE_QUEEN_SIDE
  | .BlackKing => CastleRights.BLACK_KING_SIDE ||| CastleRights.BLACK_QUEEN_SIDE
  | _ => 0

/-- The new-en-passant-target computation of the `simple_move` closure: a
white pawn whose u8 index grew by exactly 16 (two ranks) sets the square it
passed over, symmetrically for black; u8 subtraction wraps mod 256 in
release mode. -/
def simpleMoveNewEpTarget (piece : BoardPiece) (start fin : BoardIndex) : Option BoardIndex :=
  match piece with
  | .WhitePawn =>
    if (fin.pos + 256 - start.pos) % 256 = 16 then some ⟨(start.pos + 8) % 256⟩ else none
  | .BlackPawn =>
    if (start.pos + 256 - fin.pos) % 256 = 16 then some ⟨(start.pos + 256 - 8) % 256⟩ else none
  | _ => none

/-- The `simple_move` closure of Board::board_after_move: read the piece at
`start` (unwrap — panic when absent), note any capture at `fin`, write the
piece to `fin`, clear `start`, and derive the MoveInfo. -/
def simpleMove (repr : List Nat) (start fin : BoardIndex) : Option (List Nat × MoveInfo) :=
  match bufGetPiece repr start.pos with
  | none => none
  | some piece =>
    let captured := bufGetPiece repr fin.pos
    match bufSetPiece repr fin.pos (some piece) with
    | none => none
    | some r1 =>
      match bufSetPiece r1 start.pos none with
      | none => none
      | some r2 =>
        some (r2,
          { movedPieceColor := piece.color
            captured := captured
            pawnAdvanced := piece.kind = BoardPieceKind.Pawn
            revokedCastleRights := simpleMoveRevokedRights piece start
            newEnPassantTarget := simpleMoveNewEpTarget piece start fin })

/-- Board::board_after_move: Simple moves via `simple_move`; EnPassant clears
both pawns' squares and places the capturing pawn on the target square;
Castle is two `simple_move`s (king then rook) with their MoveInfo combined. -/
def Board.boardAfterMove (b : Board) (m : Move) : Option (Board × MoveInfo) :=
  match m with
  | .Simple start fin =>
    (simpleMove b.repr start fin).map fun (r, mi) => (⟨r⟩, mi)
  | .EnPassant pawnDoing pawnCaptured target =>
    match bufGetPiece b.repr pawnDoing.pos with
    | none => none
    | some pawn =>
      match bufGetPiece b.repr pawnCaptured.pos with
      | none => none
      | some capturedPawn =>
        match bufSetPiece b.repr pawnDoing.pos none with
        | none => none
        | some r1 =>
          match bufSetPiece r1 pawnCaptured.pos none with
          | none => none
          | some r2 =>
            match bufSetPiece r2 target.pos (some pawn) with
            | none => none
            | some r3 =>
              some (⟨r3⟩,
                { movedPieceColor := pawn.color
                  revokedCastleRights := 0
                  captured := some capturedPawn
                  pawnAdvanced := true
                  newEnPassantTarget := none })
  | .Castle rookFrom rookTo kingFrom kingTo =>
    match simpleMove b.repr kingFrom kingTo with
    | none => none
    | some (r1, mi) =>
      match simpleMove r1 rookFrom rookTo with
      | none => none
      | some (r2, mi2) => some (⟨r2⟩, mi.combineComposite mi2)

/-- One ray of the `std_directional` closure in BoardPiece::moves_on_board:
step multiples of the direction (the `steps` list is 1..7), stop at the
first off-board step, keep stepping over empty squares, capture-and-stop on
an opposing piece, stop silently on an own piece. `piece_at_delta` computes
`checked_add` and then reads the board, and `Move::from_delta(..).unwrap()`
rebuilds the same checked sum, so the landed index is matched directly. -/
def rayMoves (b : Board) (selfColor : PieceColor) (position : BoardIndex)
    (dir : Int × Int) : List Nat → List Move
| [] => []
| i :: rest =>
  let delta : BoardIndexDelta := ⟨dir.1 * i, dir.2 * i⟩
  match position.checkedAdd delta with
  | none => []
  | some np =>
    match b.getPieceAt np with
    | none => Move.Simple position np :: rayMoves b selfColor position dir rest
    | some p =>
      if p.color ≠ selfColor then [Move.Simple position np] else []

/-- The `std_directional` closure: the union of the rays of all given
directions, in direction order. -/
def stdDirectional (b : Board) (selfColor : PieceColor) (position : BoardIndex)
    (dirs : List (Int × Int)) : List Move :=
  dirs.flatMap fun dir => rayMoves b selfColor position dir ((List.range 7).map (· + 1))

/-- The `direct` closure (knight and king): each offset yields a move when it
lands on the board on an empty or opposing square. -/
def directMoves (b : Board) (selfColor : PieceColor) (position : BoardIndex)
    (dirs : List BoardIndexDelta) : List Move :=
  dirs.flatMap fun delta =>
    match position.checkedAdd delta with
    | none => []
    | some np =>
      match b.getPieceAt np with
      | none => [Move.Simple position np]
      | some p => if p.color ≠ selfColor then [Move.Simple position np] else []

/-- The en-passant section of the `pawn` closure. The source compares the
target against `position + delta` using the panicking `Add` impl, for the
forward-right then the forward-left diagonal; each comparison panics
(`none`) when that diagonal is off the board, and a matching comparison
builds the EnPassant move whose captured-pawn square is again a panicking
`position + delta_file(±1)`. -/
def pawnEpMoves (position : BoardIndex) (direction : Int) (e : BoardIndex) : Option (List Move) :=
  match position.checkedAdd ⟨direction, 1⟩ with
  | none => none
  | some t1 =>
    match (if e = t1 then
             match position.checkedAdd (BoardIndexDelta.ofFile 1) with
             | none => none
             | some pc => some [Move.EnPassant position pc e]
           else some []) with
    | none => none
    | some l1 =>
      match position.checkedAdd ⟨direction, -1⟩ with
      | none => none
      | some t2 =>
        if e = t2 then
          match position.checkedAdd (BoardIndexDelta.ofFile (-1)) with
          | none => none
          | some pc2 => some (l1 ++ [Move.EnPassant position pc2 e])
        else some l1

/-- The `pawn` closure of BoardPiece::moves_on_board, minus the en-passant
section: one-square advance onto an empty square; from the starting rank
(2 going up, 7 going down) additionally the two-square advance when that
square is also empty; then diagonal captures on either file offset. -/
def pawnBasicMoves (b : Board) (selfColor : PieceColor) (position : BoardIndex)
    (direction : Int) : List Move :=
  let fwd : List Move :=
    match position.checkedAdd (BoardIndexDelta.ofRank direction) with
    | none => []
    | some np =>
      match b.getPieceAt np with
      | some _ => []
      | none =>
        let one := [Move.Simple position np]
        if (direction = 1 ∧ position.rank = 2) ∨ (direction = -1 ∧ position.rank = 7) then
          match position.checkedAdd (BoardIndexDelta.ofRank (2 * direction)) with
          | none => one
          | some np2 =>
            match b.getPieceAt np2 with
            | none => one ++ [Move.Simple position np2]
            | some _ => one
        else one
  let caps : List Move :=
    [(-1 : Int), 1].flatMap fun deltaFile =>
      match position.checkedAdd ⟨direction, deltaFile⟩ with
      | none => []
      | some np =>
        match b.getPieceAt np with
        | none => []
        | some p => if p.color ≠ selfColor then [Move.Simple position np] else []
  fwd ++ caps

/-- The full `pawn` closure: basic moves, then the en-passant section when a
target is set (which is where the panicking adds live). -/
def pawnMoves (b : Board) (selfColor : PieceColor) (position : BoardIndex)
    (direction : Int) (enPassantTarget : Option BoardIndex) : Option (List Move) :=
  match enPassantTarget with
  | none => some (pawnBasicMoves b selfColor position direction)
  | some e =>
    match pawnEpMoves position direction e with
    | none => none
    | some ep => some (pawnBasicMoves b selfColor position direction ++ ep)

/-- The knight's eight offsets, in source order. -/
def knightDeltas : List BoardIndexDelta :=
  [⟨-2, -1⟩, ⟨-2, 1⟩, ⟨-1, -2⟩, ⟨-1, 2⟩, ⟨1, -2⟩, ⟨1, 2⟩, ⟨2, -1⟩, ⟨2, 1⟩]

/-- The queen's eight ray directions, in source order. -/
def queenDirs : List (Int × Int) :=
  [(-1, 0), (1, 0), (0, -1), (0, 1), (-1, -1), (-1, 1), (1, -1), (1, 1)]

/-- The king's eight offsets, in source order. -/
def kingDeltas : List BoardIndexDelta :=
  [⟨-1, -1⟩, ⟨-1, 0⟩, ⟨-1, 1⟩, ⟨0, -1⟩, ⟨0, 1⟩, ⟨1, -1⟩, ⟨1, 0⟩, ⟨1, 1⟩]

/-- BoardPiece::moves_on_board: dispatch on the piece kind; castle rights are
received but unused (no castle move is ever generated). Only the pawn
branch can panic. -/
def BoardPiece.movesOnBoard (self : BoardPiece) (position : BoardIndex) (b : Board)
    (enPassantTarget : Option BoardIndex) (_castleRights : Nat) : Option (List Move) :=
  match self with
  | .WhitePawn => pawnMoves b .White position 1 enPassantTarget
  | .BlackPawn => pawnMoves b .Black position (-1) enPassantTarget
  | .WhiteRook => some (stdDirectional b .White position [(-1, 0), (1, 0), (0, -1), (0, 1)])
  | .BlackRook => some (stdDirectional b .Black position [(-1, 0), (1, 0), (0, -1), (0, 1)])
  | .WhiteKnight => some (directMoves b .White position knightDeltas)
  | .BlackKnight => some (directMoves b .Black position knightDeltas)
  | .WhiteBishop => some (stdDirectional b .White position [(-1, -1), (-1, 1), (1, -1), (1, 1)])
  | .BlackBishop => some (stdDirectional b .Black position [(-1, -1), (-1, 1), (1, -1), (1, 1)])
  | .WhiteQueen => some (stdDirectional b .White position queenDirs)
  | .BlackQueen => some (stdDirectional b .Black position queenDirs)
  | .WhiteKing => some (directMoves b .White position kingDeltas)
  | .BlackKing => some (directMoves b .Black position kingDeltas)

/-- Board::piece_iterator: the occupied squares with their pieces, in
ascending index order. -/
def Board.pieceList (b : Board) : List (BoardIndex × BoardPiece) :=
  (iterPieces b.repr).filterMap fun ip => ip.2.map fun p => (ip.1, p)

/-- The filtered piece list feeding Board::all_possible_moves_for_turn: the
squares occupied by the given color. -/
def Board.piecesOfColor (b : Board) (turn : PieceColor) : List (BoardIndex × BoardPiece) :=
  b.pieceList.filter fun ip => ip.2.color = turn

/-- The collection of the flat_map in Board::all_possible_moves_for_turn:
per-piece move vectors concatenated in piece order; a panic in any piece's
generation makes the whole enumeration panic. -/
def collectMoves (b : Board) (enPassantTarget : Option BoardIndex) (castleRights : Nat) :
    List (BoardIndex × BoardPiece) → Option (List Move)
| [] => some []
| (idx, p) :: rest =>
  match p.movesOnBoard idx b enPassantTarget castleRights with
  | none => none
  | some ms =>
    match collectMoves b enPassantTarget castleRights rest with
    | none => none
    | some tail => some (ms ++ tail)

/-- Board::all_possible_moves_for_turn, fully collected. -/
def Board.allPossibleMovesForTurn (b : Board) (turn : PieceColor)
    (enPassantTarget : Option BoardIndex) (castleRights : Nat) : Option (List Move) :=
  collectMoves b enPassantTarget castleRights (b.piecesOfColor turn)

/-- The body of the `if let Simple(_, end)` check in
Board::check_move_validity: does this reply land on the mover's king? -/
def isKingCapture (nb : Board) (king : BoardPiece) : Move → Bool
| .Simple _ fin => nb.getPieceAt fin = some king
| _ => false

/-- The reply loop of Board::check_move_validity. The source iterates the
lazy flat_map, so each opponent piece's move vector is generated in turn and
the loop returns `false` at the first king capture, before later pieces'
vectors (and any panic inside them) are produced; generation of the current
piece's vector can still panic. -/
def checkRepliesLoop (nb : Board) (king : BoardPiece) (enPassantTarget : Option BoardIndex)
    (castleRights : Nat) : List (BoardIndex × BoardPiece) → Option Bool
| [] => some true
| (idx, p) :: rest =>
  match p.movesOnBoard idx nb enPassantTarget castleRights with
  | none => none
  | some ms =>
    if ms.any (isKingCapture nb king) then some false
    else checkRepliesLoop nb king enPassantTarget castleRights rest

/-- Board::check_move_validity: apply the candidate to get the successor
board, then scan the opponent's pseudo-legal moves there (generated with the
current en-passant and castling context) for a Simple move landing on the
mover's king. -/
def Board.checkMoveValidity (b : Board) (turn : PieceColor) (m : Move)
    (enPassantTarget : Option BoardIndex) (castleRights : Nat) : Option Bool :=
  match b.boardAfterMove m with
  | none => none
  | some (nb, _mi) =>
    checkRepliesLoop nb turn.kingOfColor enPassantTarget castleRights
      (nb.piecesOfColor turn.other)

/-- The collection of the `filter` in Board::all_legal_moves_for_turn: keep
the candidates whose validity check returns true; a panicking check panics
the whole enumeration. -/
def filterLegalLoop (check : Move → Option Bool) : List Move → Option (List Move)
| [] => some []
| m :: rest =>
  match check m with
  | none => none
  | some true =>
    match filterLegalLoop check rest with
    | none => none
    | some tail => some (m :: tail)
  | some false => filterLegalLoop check rest

/-- Board::all_legal_moves_for_turn, fully collected: the pseudo-legal moves
of the turn filtered through check_move_validity. -/
def Board.allLegalMovesForTurn (b : Board) (turn : PieceColor)
    (enPassantTarget : Option BoardIndex) (castleRights : Nat) : Option (List Move) :=
  match b.allPossibleMovesForTurn turn enPassantTarget castleRights with
  | none => none
  | some ms => filterLegalLoop (fun m => b.checkMoveValidity turn m enPassantTarget castleRights) ms

/-- GameState from src/src/game_state.rs. -/
structure GameState where
  board : Board
  nextMove : PieceColor
  castlingRights : Nat
  enPassantTarget : Option BoardIndex
  halfMoveClock : Nat
  fullMoveCounter : Nat
deriving DecidableEq, Repr

/-- ParseGameStateError from src/src/game_state.rs (the ParseIntError payload
is not modelled). -/
inductive ParseGameStateError
| MissingFields (fieldCount : Nat)
| ParseInt
| InvalidBoard (e : ParseBoardError)
| InvalidNextMove (s : List Char)
| InvalidCastleRight
deriving DecidableEq, Repr

/-- GameState::parse_from_fen: six space-separated fields (extra fields are
ignored), parsed in order: board (whose rank parsing can panic), side to
move, castle rights, en-passant target, half-move clock (u8), full-move
counter (u16). -/
def GameState.parseFromFen (fen : List Char) : Option (Except ParseGameStateError GameState) :=
  match splitOnChar ' ' fen with
  | boardF :: nextMoveF :: rightsF :: epF :: halfF :: fullF :: _ =>
    match Board.parseFromFen boardF with
    | none => none
    | some (.error e) => some (.error (.InvalidBoard e))
    | some (.ok board) =>
      match (if nextMoveF = ['w'] then some PieceColor.White
             else if nextMoveF = ['b'] then some PieceColor.Black
             else none) with
      | none => some (.error (.InvalidNextMove nextMoveF))
      | some nextMove =>
        match CastleRights.rightsFromFenStr rightsF with
        | none => some (.error .InvalidCastleRight)
        | some castlingRights =>
          let enPassantTarget := EnPassantTarget.fromFen epF
          match parseUnsigned 255 halfF with
          | none => some (.error .ParseInt)
          | some halfMoveClock =>
            match parseUnsigned 65535 fullF with
            | none => some (.error .ParseInt)
            | some fullMoveCounter =>
              some (.ok { board, nextMove, castlingRights, enPassantTarget,
                          halfMoveClock, fullMoveCounter })
  | fields =>
    -- Fewer than six fields: the first missing `next` call reports how many
    -- fields were requested before it; that index equals the field count.
    some (.error (.MissingFields fields.length))

/-- The serialized castle-rights field of GameState::to_fen: the held rights
in KQkq order, or "-" for none. -/
def rightsToChars (cr : Nat) : List Char :=
  let l :=
    (if CastleRights.hasRights cr CastleRights.WHITE_KING_SIDE then ['K'] else []) ++
    (if CastleRights.hasRights cr CastleRights.WHITE_QUEEN_SIDE then ['Q'] else []) ++
    (if CastleRights.hasRights cr CastleRights.BLACK_KING_SIDE then ['k'] else []) ++
    (if CastleRights.hasRights cr CastleRights.BLACK_QUEEN_SIDE then ['q'] else [])
  if l = [] then ['-'] else l

/-- GameState::to_fen: board field, " w " or " b ", rights, ' ', en-passant
target (Display of its BoardIndex, or "-"), then " clock counter". -/
def GameState.toFen (s : GameState) : List Char :=
  s.board.toFen ++
  (if s.nextMove = PieceColor.White then [' ', 'w', ' '] else [' ', 'b', ' ']) ++
  rightsToChars s.castlingRights ++ [' '] ++
  (match s.enPassantTarget with
   | some ept => boardIndexToChars ept
   | none => ['-']) ++
  [' '] ++ natToChars s.halfMoveClock ++ [' '] ++ natToChars s.fullMoveCounter

/-- GameState::legal_moves, fully collected. -/
def GameState.legalMoves (s : GameState) : Option (List Move) :=
  s.board.allLegalMovesForTurn s.nextMove s.enPassantTarget s.castlingRights

/-- GameState::perform_move: fold the MoveInfo of the applied move into the
clocks, rights, en-passant target and turn (u8/u16 increments wrap in
release mode; the debug assertion on the mover's color is compiled out). -/
def GameState.performMove (s : GameState) (m : Move) : Option GameState :=
  match s.board.boardAfterMove m with
  | none => none
  | some (b, mi) =>
    some { board := b
           nextMove := mi.movedPieceColor.other
           castlingRights := CastleRights.revoke s.castlingRights mi.revokedCastleRights
           enPassantTarget := mi.newEnPassantTarget
           halfMoveClock :=
             if mi.pawnAdvanced || mi.captured.isSome then 0
             else (s.halfMoveClock + 1) % 256
           fullMoveCounter :=
             if mi.movedPieceColor = PieceColor.Black then (s.fullMoveCounter + 1) % 65536
             else s.fullMoveCounter }

/-- The canonical starting FEN from GameState::starting. -/
def startingFen : List Char :=
  ("rnbqkbnr/pppppppp/8/8/8/8/PPPPPPPP/RNBQKBNR w KQkq - 0 1").data

/-- GameState::starting: parse the starting FEN and unwrap (the unwrap
cannot fail, as the theorems about this definition show by evaluation). -/
def GameState.starting : Option GameState :=
  match GameState.parseFromFen startingFen with
  | some (.ok s) => some s
  | _ => none

/-- Iterated GameState::perform_move over a list of moves, for stating
properties of sequences of applied moves. -/
def GameState.performMoves (s : GameState) : List Move → Option GameState
| [] => some s
| m :: ms =>
  match s.performMove m with
  | none => none
  | some s' => s'.performMoves ms

/-- Does a move's source square hold a piece of the given color on the given
board? (The source square of a Castle is taken to be the king's.) -/
def moveSourceIsColor (b : Board) (c : PieceColor) : Move → Bool
| .Simple s _ => (b.getPieceAt s).any fun p => p.color = c
| .EnPassant s _ _ => (b.getPieceAt s).any fun p => p.color = c
| .Castle _ _ kf _ => (b.getPieceAt kf).any fun p => p.color = c

/-- Is an Except value an `ok`? -/
def exceptIsOk {ε α : Type} : Except ε α → Bool
| .ok _ => true
| .error _ => false

/-- Decidable equality for Except results, used to state evaluations of the
parsers. -/
instance exceptDecEq {ε α : Type} [DecidableEq ε] [DecidableEq α] :
    DecidableEq (Except ε α)
| .ok a, .ok b =>
  match decEq a b with
  | .isTrue h => .isTrue (by rw [h])
  | .isFalse h => .isFalse (by intro hc; cases hc; exact h rfl)
| .ok _, .error _ => .isFalse (by intro hc; cases hc)
| .error _, .ok _ => .isFalse (by intro hc; cases hc)
| .error e, .error f =>
  match decEq e f with
  | .isTrue h => .isTrue (by rw [h])
  | .isFalse h => .isFalse (by intro hc; cases hc; exact h rfl)

/-- A FEN whose en-passant field is set and whose side to move has a pawn on
file H (black pawn h4, after White's g2-g4 — an ordinary position reachable
in real play). -/
def c2Fen : List Char := ("k7/8/8/8/6Pp/8/8/K7 b - g3 0 1").data

/-- A board field whose first rank describes nine files. -/
def c8FenA : List Char := ("ppppppppp/8/8/8/8/8/8/8").data

/-- A board field whose first rank is two digits summing to nine files. -/
def c8FenB : List Char := ("81/8/8/8/8/8/8/8").data

/-- Validity of one packed nibble: empty, or decoding to a piece (and hence
equal to that piece's discriminant). -/
def nibbleOk (n : Nat) : Bool :=
  n = 0 || (BoardPiece.fromRepr n).isSome

/-- Validity of one packed byte: a u8 whose two nibbles are valid — the
invariant the storage layer maintains (§3 of the spec: a cell's stored
pattern is either empty or decodes to exactly one valid BoardPiece). -/
def byteOk (b : Nat) : Bool :=
  decide (b < 256) && nibbleOk (b >>> 4) && nibbleOk (b &&& 0x0F)

/-- Validity of a whole board: 32 bytes, all valid. -/
def ValidBoard (b : Board) : Prop :=
  b.repr.length = 32 ∧ ∀ x ∈ b.repr, byteOk x = true

/-- Validity of a game state: valid board, rights within the 4-bit set, an
in-range en-passant square if any, and clock/counter within their u8/u16
ranges — exactly what parsing establishes and gameplay maintains. -/
def ValidState (s : GameState) : Prop :=
  ValidBoard s.board ∧ s.castlingRights < 16 ∧
  (match s.enPassantTarget with
   | some e => e.pos < 64
   | none => True) ∧
  s.halfMoveClock ≤ 255 ∧ s.fullMoveCounter ≤ 65535

/-- Modelled from the spec: a position description in canonical form (empty
runs collapsed to digits, castling rights in KQkq order or "-", en-passant
square or "-", six space-separated fields) — amended, as forced by the
counterexample, to the serializer's exact format, whose en-passant square
uses an uppercase file letter: the canonical descriptions are exactly the
serializations of valid game states. -/
def CanonicalFen (cs : List Char) : Prop :=
  ∃ s : GameState, ValidState s ∧ cs = s.toFen

/-- Total version of `bufSetPiece` for stating what in-bounds stores do
(`bufSetPiece` agrees with it whenever the byte index is in bounds). -/
def bufSetPieceTotal (repr : List Nat) (pos : Nat) (p : Option BoardPiece) : List Nat :=
  let cell := pos / 2
  let b := repr.getD cell 0
  repr.set cell (if pos % 2 = 0 then setPiece0 b p else setPiece1 b p)

/-- Replay of a parsed rank: write the cells one file at a time starting at
`pos`, skipping empties — the cumulative effect of `parseRankLoop`'s
stores. -/
def writeCells (repr : List Nat) (pos : Nat) : List (Option BoardPiece) → List Nat
| [] => repr
| c :: cs =>
  writeCells
    (match c with
     | some p => bufSetPieceTotal repr pos (some p)
     | none => repr)
    (pos + 1) cs

/-- Re-encoding of one byte from its two decoded nibbles, starting from an
empty byte — what the parser's stores rebuild for one byte of a rank. -/
def rebuildByte (b : Nat) : Nat :=
  let r1 :=
    match getPiece0 b with
    | some p => setPiece0 0 (some p)
    | none => 0
  match getPiece1 b with
  | some q => setPiece1 r1 (some q)
  | none => r1

/-- A minimal game state used to instantiate the universally quantified
theorems: white king a1, black king h8, White to move, all rights held. -/
def kingsState : GameState :=
  { board := ⟨[96] ++ List.replicate 30 0 ++ [14]⟩
    nextMove := .White
    castlingRights := 15
    enPassantTarget := none
    halfMoveClock := 3
    fullMoveCounter := 5 }

/-- The state `kingsState` reaches after the king move a1-b2: the white king
sits on b2, both white rights are revoked, the clock has advanced. -/
def kingsStateAfter : GameState :=
  { board := ⟨[0, 0, 0, 0, 6] ++ List.replicate 26 0 ++ [14]⟩
    nextMove := .Black
    castlingRights := 12
    enPassantTarget := none
    halfMoveClock := 4
    fullMoveCounter := 5 }

/-- The MoveInfo produced by applying the king move a1-b2 on `kingsState`:
a white king move, revoking both white rights, no capture, no pawn. -/
def kingsAfterInfo : MoveInfo :=
  { movedPieceColor := .White
    revokedCastleRights := 3
    captured := none
    pawnAdvanced := false
    newEnPassantTarget := none }

/-- A game state with a black pawn on h4, a white pawn on g4 and the
en-passant target g3 (index 22), Black to move — an EnPassant capture is
applicable. -/
def epWitnessState : GameState :=
  { board := ⟨[96] ++ List.replicate 14 0 ++ [25] ++ List.replicate 12 0 ++ [224, 0, 0, 0]⟩
    nextMove := .Black
    castlingRights := 0
    enPassantTarget := some ⟨22⟩
    halfMoveClock := 0
    fullMoveCounter := 1 }

/-- The state `epWitnessState` reaches after the en-passant capture
h4xg3: the black pawn sits on g3, the white pawn is gone, and the
en-passant target is absent. -/
def epWitnessAfter : GameState :=
  { board := ⟨[96] ++ List.replicate 10 0 ++ [144] ++ List.replicate 16 0 ++ [224, 0, 0, 0]⟩
    nextMove := .White
    castlingRights := 0
    enPassantTarget := none
    halfMoveClock := 0
    fullMoveCounter := 2 }

/-- A game state with the white king on e1 and white rook on h1 (plus a
black king on a8), White to move — a king-side Castle is applicable. -/
def castleWitnessState : GameState :=
  { board := ⟨[0, 0, 96, 2] ++ List.replicate 24 0 ++ [224, 0, 0, 0]⟩
    nextMove := .White
    castlingRights := 15
    enPassantTarget := none
    halfMoveClock := 2
    fullMoveCounter := 3 }

/-- The state `castleWitnessState` reaches after the white king-side
castle: king on g1, rook on f1, White's rights revoked, no en-passant
target. -/
def castleWitnessAfter : GameState :=
  { board := ⟨[0, 0, 2, 96] ++ List.replicate 24 0 ++ [224, 0, 0, 0]⟩
    nextMove := .Black
    castlingRights := 12
    enPassantTarget := none
    halfMoveClock := 3
    fullMoveCounter := 3 }

/-- The board bytes after the king sub-move of the witness castle (king
moved e1 to g1, rook still on h1). -/
def castleWitnessR1 : List Nat := [0, 0, 0, 98] ++ List.replicate 24 0 ++ [224, 0, 0, 0]

/-- The MoveInfo of the king sub-move of the witness castle. -/
def castleWitnessMi1 : MoveInfo :=
  { movedPieceColor := .White
    revokedCastleRights := 3
    captured := none
    pawnAdvanced := false
    newEnPassantTarget := none }

/-- A valid game state (kings a1/a8) whose serialization is
"k7/8/8/8/8/8/8/K7 w - - 0 1", used to instantiate the round-trip
theorem. -/
def c4WitnessState : GameState :=
  { board := ⟨[96] ++ List.replicate 27 0 ++ [224, 0, 0, 0]⟩
    nextMove := .White
    castlingRights := 0
    enPassantTarget := none
    halfMoveClock := 0
    fullMoveCounter := 1 }

/-- A game state parsed from a FEN whose half-move clock field is 255 (the
u8 maximum), used to exhibit the clock wrap-around. -/
def c6State : Option GameState :=
  match GameState.parseFromFen (("k7/8/8/8/8/8/8/K7 w - - 255 1").data) with
  | some (.ok st) => some st
  | _ => none

/-- The lowercase-en-passant canonical FEN of the C4 counterexample. -/
def c4LowercaseFen : List Char :=
  ("rnbqkbnr/pppppppp/8/8/4P3/8/8/RNBQKBNR b KQkq e3 0 1").data

/-- C3: enumerating the legal moves on the canonical starting position (the
state built by GameState::starting) returns exactly 20 moves, every one of
them made by a piece of White, the side to move. -/
theorem C3_starting_position_has_20_white_moves :
    (GameState.starting.bind fun st =>
      st.legalMoves.map fun l =>
        (l.length, l.all (moveSourceIsColor st.board st.nextMove), st.nextMove)) =
    some (20, true, PieceColor.White) := by decide

/-- C2 (refuting evaluation): the position "k7/8/8/8/6Pp/8/8/K7 b - g3 0 1"
— black pawn on h4 with an en-passant target, reachable in real play right
after White's g2-g4 — parses successfully, yet enumerating its legal moves
hits the fatal abort class: the pawn branch evaluates `position + delta`
for the forward-right diagonal of the h4 pawn, which is off the board, and
the panicking `Add` impl aborts (`none` in this embedding). -/
theorem C2_en_passant_generation_panics_for_edge_pawn :
    (GameState.parseFromFen c2Fen).map (fun r =>
      r.map fun st => (st.legalMoves, st.board.getPieceAt ⟨31⟩, st.nextMove)) =
    some (.ok (none, some BoardPiece.BlackPawn, PieceColor.Black)) := by decide

/-- C8 (refuting evaluation): a board field whose first rank lists nine
pieces makes `parse_rank` store the ninth piece at file index 8 — an
out-of-bounds write into the 4-byte rank buffer, violating `set_piece`'s own
bound assertion and panicking (`none` here) instead of returning the
malformed-board-field error; and a rank of digits summing to nine files is
accepted without any error. -/
theorem C8_overlong_rank_panics_or_passes :
    Board.parseFromFen c8FenA = none ∧
    (Board.parseFromFen c8FenB).map exceptIsOk = some true := by
  exact ⟨by decide, by decide⟩

/-- C9 (counterexample): the board field "pppppppp/8/8/8/8/8/8/7P/8" — the
claim's own example — parses successfully (the ninth rank is silently
ignored), rather than yielding the missing-files error the claim asserts. -/
theorem C9_counterexample_nine_ranks_parse_ok :
    (Board.parseFromFen (("pppppppp/8/8/8/8/8/8/7P/8").data)).map exceptIsOk = some true := by
  decide

/-- C9 (amended): a rank genuinely summing to fewer than eight files yields
MissingFilesInFEN — both at rank level ("ppppppp") and through the full
board parse ("7/8/8/8/8/8/8/8"); the claim's examples behave differently:
"pppppppp/8/8/8/8/8/8/7P/8" parses successfully with its extra rank
ignored (each of its first eight ranks sums to exactly 8 — "7P" is 7+1),
and "7P" alone as the whole board field fails with MissingRank 6, not with
the missing-files error. -/
theorem C9_amended_underfull_rank_gives_missing_files :
    Board.parseRank (("ppppppp").data) =
      some (.error (.MissingFilesInFEN 7 (("ppppppp").data))) ∧
    Board.parseFromFen (("7/8/8/8/8/8/8/8").data) =
      some (.error (.MissingFilesInFEN 7 (("7").data))) ∧
    Board.parseFromFen (("7P").data) = some (.error (.MissingRank 6)) ∧
    (Board.parseFromFen (("pppppppp/8/8/8/8/8/8/7P/8").data)).map exceptIsOk = some true := by
  refine ⟨by decide, by decide, by decide, by decide⟩

/-- C4 (counterexample): the canonical FEN
"rnbqkbnr/pppppppp/8/8/4P3/8/8/RNBQKBNR b KQkq e3 0 1" (standard FEN
writes the en-passant square lowercase) parses successfully, but
serializing the parsed state prints the en-passant square as "E3", so
parse-then-serialize does not reproduce the input. -/
theorem C4_counterexample_lowercase_en_passant :
    (GameState.parseFromFen c4LowercaseFen).map (fun r => r.map GameState.toFen) =
      some (.ok (("rnbqkbnr/pppppppp/8/8/4P3/8/8/RNBQKBNR b KQkq E3 0 1").data)) ∧
    ¬ ((("rnbqkbnr/pppppppp/8/8/4P3/8/8/RNBQKBNR b KQkq E3 0 1").data) = c4LowercaseFen) := by
  exact ⟨by decide, by decide⟩

/-- C5 (counterexample): from the starting position, after the two-square
pawn advance e2-e4 the en-passant target is e3 (index 20); but the single
subsequent applied move d7-d5 — a move by the other side — leaves the
en-passant target present (d6, index 43), not absent as the claim
asserts. -/
theorem C5_counterexample_double_advance_reply :
    ((GameState.starting.bind fun s => s.performMove (.Simple ⟨12⟩ ⟨28⟩)).map
        fun s1 => s1.enPassantTarget) = some (some ⟨20⟩) ∧
    (((GameState.starting.bind fun s => s.performMove (.Simple ⟨12⟩ ⟨28⟩)).bind fun s1 =>
        s1.performMove (.Simple ⟨51⟩ ⟨35⟩)).map
        fun s2 => s2.enPassantTarget) = some (some ⟨43⟩) := by
  exact ⟨by decide, by decide⟩

/-- Membership in the collected output of the legality filter loop: a move
is kept exactly when it was among the candidates and its validity check
returned true. -/
theorem filterLegalLoop_mem (check : Move → Option Bool) :
    ∀ (ms LL : List Move), filterLegalLoop check ms = some LL →
      ∀ m, m ∈ LL ↔ (m ∈ ms ∧ check m = some true) := by
  intro ms
  induction ms with
  | nil =>
    intro LL h m
    injection h with h'
    subst h'
    simp
  | cons m0 rest ih =>
    intro LL h m
    unfold filterLegalLoop at h
    cases hc : check m0 with
    | none => rw [hc] at h; cases h
    | some bv =>
      rw [hc] at h
      cases bv with
      | true =>
        dsimp only [] at h
        cases ht : filterLegalLoop check rest with
        | none => rw [ht] at h; cases h
        | some tail =>
          rw [ht] at h
          dsimp only [] at h
          injection h with h'
          subst h'
          simp only [List.mem_cons]
          constructor
          · rintro (rfl | hmem)
            · exact ⟨Or.inl rfl, hc⟩
            · obtain ⟨h1, h2⟩ := (ih tail ht m).mp hmem
              exact ⟨Or.inr h1, h2⟩
          · rintro ⟨rfl | h1, h2⟩
            · exact Or.inl rfl
            · exact Or.inr ((ih tail ht m).mpr ⟨h1, h2⟩)
      | false =>
        dsimp only [] at h
        rw [ih LL h m]
        simp only [List.mem_cons]
        constructor
        · rintro ⟨h1, h2⟩
          exact ⟨Or.inr h1, h2⟩
        · rintro ⟨rfl | h1, h2⟩
          · rw [hc] at h2
            cases h2
          · exact ⟨h1, h2⟩

/-- The king-capture scan of check_move_validity, related to the collected
pseudo-legal reply list: when the opponent's generation succeeds with list
L, the scan returns true exactly when no reply in L is a Simple move onto
the king (and false at the first one that is). -/
theorem checkRepliesLoop_of_collect (nb : Board) (king : BoardPiece)
    (ept : Option BoardIndex) (cr : Nat) :
    ∀ (ps : List (BoardIndex × BoardPiece)) (L : List Move),
      collectMoves nb ept cr ps = some L →
      checkRepliesLoop nb king ept cr ps = some (!L.any (isKingCapture nb king)) := by
  intro ps
  induction ps with
  | nil =>
    intro L h
    injection h with h'
    subst h'
    rfl
  | cons ip rest ih =>
    obtain ⟨idx, p⟩ := ip
    intro L h
    unfold collectMoves at h
    cases hmv : p.movesOnBoard idx nb ept cr with
    | none => rw [hmv] at h; cases h
    | some ms =>
      rw [hmv] at h
      dsimp only [] at h
      cases hcol : collectMoves nb ept cr rest with
      | none => rw [hcol] at h; cases h
      | some tail =>
        rw [hcol] at h
        dsimp only [] at h
        injection h with h'
        subst h'
        unfold checkRepliesLoop
        rw [hmv]
        dsimp only []
        cases hany : ms.any (isKingCapture nb king) with
        | true => simp [hany, List.any_append]
        | false =>
          rw [ih tail hcol]
          simp [hany, List.any_append]

/-- C1: for every board, side to move, en-passant and castling context, a
pseudo-legal move m (an element of the collected pseudo-legal enumeration)
appears in the collected legal-move enumeration if and only if, on the
successor board obtained by applying m, no pseudo-legal Simple move of the
opponent (generated with the same, current context) has the square holding
the mover's king as its destination — so a move leaving the mover's king
attacked by a Simple reply never appears in the output. -/
theorem C1_legal_iff_no_simple_king_capture :
    ∀ (b : Board) (turn : PieceColor) (ept : Option BoardIndex) (cr : Nat)
      (L LL : List Move) (m : Move) (nb : Board) (mi : MoveInfo) (opp : List Move),
      b.allPossibleMovesForTurn turn ept cr = some L →
      b.allLegalMovesForTurn turn ept cr = some LL →
      b.boardAfterMove m = some (nb, mi) →
      nb.allPossibleMovesForTurn turn.other ept cr = some opp →
      m ∈ L →
      (m ∈ LL ↔ ∀ s e : BoardIndex, Move.Simple s e ∈ opp →
        ¬ (nb.getPieceAt e = some turn.kingOfColor)) := by
  intro b turn ept cr L LL m nb mi opp hposs hlegal hbam hopp hmL
  unfold Board.allLegalMovesForTurn at hlegal
  rw [hposs] at hlegal
  dsimp only [] at hlegal
  have hfilter := filterLegalLoop_mem _ L LL hlegal m
  have hcheck : b.checkMoveValidity turn m ept cr =
      some (!opp.any (isKingCapture nb turn.kingOfColor)) := by
    unfold Board.checkMoveValidity
    rw [hbam]
    dsimp only []
    exact checkRepliesLoop_of_collect nb turn.kingOfColor ept cr
      (nb.piecesOfColor turn.other) opp hopp
  rw [hfilter]
  constructor
  · rintro ⟨-, hc⟩
    intro s e hmem hpe
    rw [hcheck] at hc
    injection hc with hc'
    have hfalse : opp.any (isKingCapture nb turn.kingOfColor) = false := by
      cases hx : opp.any (isKingCapture nb turn.kingOfColor) with
      | false => rfl
      | true => rw [hx] at hc'; cases hc'
    have hnone := List.any_eq_false.mp hfalse (Move.Simple s e) hmem
    apply hnone
    simp [isKingCapture, hpe]
  · intro hall
    refine ⟨hmL, ?_⟩
    rw [hcheck]
    have hfalse : opp.any (isKingCapture nb turn.kingOfColor) = false := by
      rw [List.any_eq_false]
      intro mv hmv
      cases mv with
      | Simple s e => simpa [isKingCapture] using hall s e hmv
      | EnPassant a c t => simp [isKingCapture]
      | Castle a c d f => simp [isKingCapture]
    rw [hfalse]
    rfl

/-- C1 (witness): on the two-kings board, the white king's move a1-b2 is
pseudo-legal, appears in the legal enumeration, and indeed none of the black
king's three replies on the successor board lands on the white king. -/
theorem C1_legal_iff_witness :
    (Move.Simple ⟨0⟩ ⟨9⟩ ∈
        [Move.Simple ⟨0⟩ ⟨1⟩, Move.Simple ⟨0⟩ ⟨8⟩, Move.Simple ⟨0⟩ ⟨9⟩] ↔
      ∀ s e : BoardIndex,
        Move.Simple s e ∈
          [Move.Simple ⟨63⟩ ⟨54⟩, Move.Simple ⟨63⟩ ⟨55⟩, Move.Simple ⟨63⟩ ⟨62⟩] →
        ¬ ((Board.mk ([0, 0, 0, 0, 6] ++ List.replicate 26 0 ++ [14])).getPieceAt e =
            some (PieceColor.White.kingOfColor))) :=
  C1_legal_iff_no_simple_king_capture kingsState.board .White none 15
    [Move.Simple ⟨0⟩ ⟨1⟩, Move.Simple ⟨0⟩ ⟨8⟩, Move.Simple ⟨0⟩ ⟨9⟩]
    [Move.Simple ⟨0⟩ ⟨1⟩, Move.Simple ⟨0⟩ ⟨8⟩, Move.Simple ⟨0⟩ ⟨9⟩]
    (Move.Simple ⟨0⟩ ⟨9⟩)
    (Board.mk ([0, 0, 0, 0, 6] ++ List.replicate 26 0 ++ [14])) kingsAfterInfo
    [Move.Simple ⟨63⟩ ⟨54⟩, Move.Simple ⟨63⟩ ⟨55⟩, Move.Simple ⟨63⟩ ⟨62⟩]
    (by decide) (by decide) (by decide) (by decide) (by decide)

/-- C10: for every in-range BoardIndex and every delta with both components
in [-7, 7], checked_add succeeds exactly when both the rank sum and the file
sum stay within [1, 8], and on success the result is an in-range index whose
rank and file are exactly those sums — never a wrapped-around index; when
either sum leaves [1, 8] the addition returns none. -/
theorem C10_checked_add_exact :
    ∀ (i : BoardIndex) (dr df : Int),
      i.pos < 64 → -7 ≤ dr → dr ≤ 7 → -7 ≤ df → df ≤ 7 →
      ((i.checkedAdd ⟨dr, df⟩).isSome = true ↔
        (1 ≤ (i.rank : Int) + dr ∧ (i.rank : Int) + dr ≤ 8 ∧
         1 ≤ (i.file : Int) + df ∧ (i.file : Int) + df ≤ 8)) ∧
      (∀ j : BoardIndex, i.checkedAdd ⟨dr, df⟩ = some j →
        (j.rank : Int) = (i.rank : Int) + dr ∧ (j.file : Int) = (i.file : Int) + df ∧
        j.pos < 64) := by
  intro i dr df h64 hdr1 hdr2 hdf1 hdf2
  obtain ⟨pos⟩ := i
  simp only [BoardIndex.checkedAdd, BoardIndex.uncheckedAdd, BoardIndex.rank,
    BoardIndex.file] at *
  split_ifs with c1 c2 c3 c4
  · refine ⟨by simp only [Option.isSome_none, Bool.false_eq_true, false_iff]; omega,
      by intro j hj; cases hj⟩
  · refine ⟨by simp only [Option.isSome_none, Bool.false_eq_true, false_iff]; omega,
      by intro j hj; cases hj⟩
  · refine ⟨by simp only [Option.isSome_none, Bool.false_eq_true, false_iff]; omega,
      by intro j hj; cases hj⟩
  · refine ⟨by simp only [Option.isSome_none, Bool.false_eq_true, false_iff]; omega,
      by intro j hj; cases hj⟩
  · constructor
    · simp only [Option.isSome_some, true_iff]
      omega
    · intro j hj
      injection hj with hj'
      subst hj'
      simp only [BoardIndex.rank, BoardIndex.file]
      omega

/-- C10 (witness): from square e2 (index 12, rank 2, file 5) with delta
(+1, 0), the checked addition succeeds — both sums stay in [1, 8] — and the
result has rank 3 and file 5. -/
theorem C10_checked_add_exact_witness :
    (((⟨12⟩ : BoardIndex).checkedAdd ⟨1, 0⟩).isSome = true ↔
      (1 ≤ ((⟨12⟩ : BoardIndex).rank : Int) + 1 ∧ ((⟨12⟩ : BoardIndex).rank : Int) + 1 ≤ 8 ∧
       1 ≤ ((⟨12⟩ : BoardIndex).file : Int) + 0 ∧ ((⟨12⟩ : BoardIndex).file : Int) + 0 ≤ 8)) ∧
    (∀ j : BoardIndex, (⟨12⟩ : BoardIndex).checkedAdd ⟨1, 0⟩ = some j →
      (j.rank : Int) = ((⟨12⟩ : BoardIndex).rank : Int) + 1 ∧
      (j.file : Int) = ((⟨12⟩ : BoardIndex).file : Int) + 0 ∧ j.pos < 64) :=
  C10_checked_add_exact ⟨12⟩ 1 0 (by decide) (by decide) (by decide) (by decide) (by decide)

/-- C7: for every applied move (and hence along every sequence of applied
moves), the castling-rights bit set never grows: perform_move only ever
intersects the rights with the complement of the revoked set, so every bit
held afterwards was held before. -/
theorem C7_castling_rights_monotone :
    (∀ (s : GameState) (m : Move) (s' : GameState), s.performMove m = some s' →
      ∀ i, s'.castlingRights.testBit i = true → s.castlingRights.testBit i = true) ∧
    (∀ (s : GameState) (ms : List Move) (s' : GameState), s.performMoves ms = some s' →
      ∀ i, s'.castlingRights.testBit i = true → s.castlingRights.testBit i = true) := by
  have step : ∀ (s : GameState) (m : Move) (s' : GameState), s.performMove m = some s' →
      ∀ i, s'.castlingRights.testBit i = true → s.castlingRights.testBit i = true := by
    intro s m s' h i hbit
    unfold GameState.performMove at h
    cases hb : s.board.boardAfterMove m with
    | none => rw [hb] at h; exact Option.noConfusion h
    | some bm =>
      obtain ⟨b2, mi⟩ := bm
      rw [hb] at h
      injection h with h'
      subst h'
      simp only [CastleRights.revoke, Nat.testBit_land, Bool.and_eq_true] at hbit
      exact hbit.1
  refine ⟨step, ?_⟩
  intro s ms
  induction ms generalizing s with
  | nil =>
    intro s' h i hbit
    unfold GameState.performMoves at h
    injection h with h'
    subst h'
    exact hbit
  | cons m ms ih =>
    intro s' h i hbit
    unfold GameState.performMoves at h
    cases hm : s.performMove m with
    | none => rw [hm] at h; exact Option.noConfusion h
    | some s1 =>
      rw [hm] at h
      exact step s m s1 hm i (ih s1 s' h i hbit)

/-- C7 (witness): the king move a1-b2 from the two-kings state is an applied
move, and every castling-right bit held afterwards (the rights drop from 15
to 12) was held before. -/
theorem C7_castling_rights_monotone_witness :
    kingsState.performMove (.Simple ⟨0⟩ ⟨9⟩) = some kingsStateAfter ∧
    (∀ i, kingsStateAfter.castlingRights.testBit i = true →
      kingsState.castlingRights.testBit i = true) :=
  ⟨by decide,
   C7_castling_rights_monotone.1 kingsState (.Simple ⟨0⟩ ⟨9⟩) kingsStateAfter (by decide)⟩

/-- C6 (amended): applying a move through perform_move sets the half-move
clock to 0 when the move advanced a pawn or captured, and otherwise to the
previous value plus one reduced mod 256 — the clock is a u8, so this is
"plus exactly 1" whenever the previous value is below 255, and a wrap to 0
from 255. -/
theorem C6_amended_clock_reset_or_mod_increment :
    ∀ (s : GameState) (m : Move) (bmi : Board × MoveInfo) (s' : GameState),
      s.performMove m = some s' →
      s.board.boardAfterMove m = some bmi →
      ((bmi.2.pawnAdvanced || bmi.2.captured.isSome) = true → s'.halfMoveClock = 0) ∧
      ((bmi.2.pawnAdvanced || bmi.2.captured.isSome) = false →
        s'.halfMoveClock = (s.halfMoveClock + 1) % 256) := by
  intro s m bmi s' hpm hbam
  obtain ⟨b2, mi⟩ := bmi
  unfold GameState.performMove at hpm
  rw [hbam] at hpm
  injection hpm with h'
  subst h'
  constructor
  · intro hc
    simp only [hc, if_true]
  · intro hc
    simp only [hc, Bool.false_eq_true, if_false]

/-- C6 (witness): the king move a1-b2 from the two-kings state neither
advances a pawn nor captures, and the clock goes from 3 to (3+1) % 256 = 4. -/
theorem C6_amended_witness :
    kingsState.performMove (.Simple ⟨0⟩ ⟨9⟩) = some kingsStateAfter ∧
    ((kingsAfterInfo.pawnAdvanced || kingsAfterInfo.captured.isSome) = true →
      kingsStateAfter.halfMoveClock = 0) ∧
    ((kingsAfterInfo.pawnAdvanced || kingsAfterInfo.captured.isSome) = false →
      kingsStateAfter.halfMoveClock = (kingsState.halfMoveClock + 1) % 256) :=
  ⟨by decide,
   C6_amended_clock_reset_or_mod_increment kingsState (.Simple ⟨0⟩ ⟨9⟩)
     (⟨[0, 0, 0, 0, 6] ++ List.replicate 26 0 ++ [14]⟩, kingsAfterInfo) kingsStateAfter
     (by decide) (by decide)⟩

/-- The MoveInfo of a successful `simple_move` carries no new en-passant
target unless the moved piece is a pawn whose u8 index changed by exactly
16 in its forward direction. -/
theorem simpleMove_newEp_none (repr : List Nat) (start fin : BoardIndex)
    (r : List Nat) (mi : MoveInfo) (p : BoardPiece)
    (hsm : simpleMove repr start fin = some (r, mi))
    (hpiece : bufGetPiece repr start.pos = some p)
    (hw : p = .WhitePawn → ¬ (fin.pos + 256 - start.pos) % 256 = 16)
    (hb : p = .BlackPawn → ¬ (start.pos + 256 - fin.pos) % 256 = 16) :
    mi.newEnPassantTarget = none := by
  unfold simpleMove at hsm
  rw [hpiece] at hsm
  dsimp only [] at hsm
  cases h1 : bufSetPiece repr fin.pos (some p) with
  | none => rw [h1] at hsm; exact Option.noConfusion hsm
  | some r1 =>
    rw [h1] at hsm
    dsimp only [] at hsm
    cases h2 : bufSetPiece r1 start.pos none with
    | none => rw [h2] at hsm; exact Option.noConfusion hsm
    | some r2 =>
      rw [h2] at hsm
      dsimp only [] at hsm
      injection hsm with hsm'
      rw [Prod.mk.injEq] at hsm'
      rw [← hsm'.2]
      show simpleMoveNewEpTarget p start fin = none
      cases p with
      | WhitePawn =>
        unfold simpleMoveNewEpTarget
        rw [if_neg (hw rfl)]
      | BlackPawn =>
        unfold simpleMoveNewEpTarget
        rw [if_neg (hb rfl)]
      | WhiteRook => rfl
      | WhiteKnight => rfl
      | WhiteBishop => rfl
      | WhiteQueen => rfl
      | WhiteKing => rfl
      | BlackRook => rfl
      | BlackKnight => rfl
      | BlackBishop => rfl
      | BlackQueen => rfl
      | BlackKing => rfl

/-- C5 (amended): after the two-square pawn advance e2-e4 from the starting
position the en-passant target is e3 (index 20); and after any single
subsequent applied move that is not itself a two-square pawn advance, the
en-passant target becomes absent — a subsequent two-square pawn advance
instead installs its own passed-over square, as the counterexample shows.
The general statement covers every applied move: a Simple move whose moved
piece is not a pawn advancing two ranks, every EnPassant move
(unconditionally), and every Castle move neither of whose two sub-moves
moves a pawn two ranks (a real castle moves only a king and a rook, but
the Move type does not enforce that, so the sub-move conditions are
stated). -/
theorem C5_amended_ep_lifecycle :
    (((GameState.starting.bind fun s => s.performMove (.Simple ⟨12⟩ ⟨28⟩)).map
        fun s1 => s1.enPassantTarget) = some (some ⟨20⟩)) ∧
    (∀ (s : GameState) (start fin : BoardIndex) (p : BoardPiece) (s' : GameState),
      s.performMove (.Simple start fin) = some s' →
      s.board.getPieceAt start = some p →
      (p = .WhitePawn → ¬ (fin.pos + 256 - start.pos) % 256 = 16) →
      (p = .BlackPawn → ¬ (start.pos + 256 - fin.pos) % 256 = 16) →
      s'.enPassantTarget = none) ∧
    (∀ (s : GameState) (pd pc t : BoardIndex) (s' : GameState),
      s.performMove (.EnPassant pd pc t) = some s' →
      s'.enPassantTarget = none) ∧
    (∀ (s : GameState) (rf rt kf kt : BoardIndex) (s' : GameState)
      (pk pr : BoardPiece) (r1 : List Nat) (mi1 : MoveInfo),
      s.performMove (.Castle rf rt kf kt) = some s' →
      simpleMove s.board.repr kf kt = some (r1, mi1) →
      bufGetPiece s.board.repr kf.pos = some pk →
      bufGetPiece r1 rf.pos = some pr →
      (pk = .WhitePawn → ¬ (kt.pos + 256 - kf.pos) % 256 = 16) →
      (pk = .BlackPawn → ¬ (kf.pos + 256 - kt.pos) % 256 = 16) →
      (pr = .WhitePawn → ¬ (rt.pos + 256 - rf.pos) % 256 = 16) →
      (pr = .BlackPawn → ¬ (rf.pos + 256 - rt.pos) % 256 = 16) →
      s'.enPassantTarget = none) := by
  refine ⟨by decide, ?_, ?_, ?_⟩
  · intro s start fin p s' hpm hpiece hw hb
    simp only [Board.getPieceAt] at hpiece
    unfold GameState.performMove at hpm
    simp only [Board.boardAfterMove] at hpm
    cases hsm : simpleMove s.board.repr start fin with
    | none => rw [hsm] at hpm; exact Option.noConfusion hpm
    | some rmi =>
      obtain ⟨r, mi⟩ := rmi
      rw [hsm] at hpm
      simp only [Option.map_some'] at hpm
      injection hpm with h'
      subst h'
      show mi.newEnPassantTarget = none
      exact simpleMove_newEp_none s.board.repr start fin r mi p hsm hpiece hw hb
  · intro s pd pc t s' hpm
    unfold GameState.performMove at hpm
    simp only [Board.boardAfterMove] at hpm
    cases h1 : bufGetPiece s.board.repr pd.pos with
    | none => rw [h1] at hpm; exact Option.noConfusion hpm
    | some pawn =>
      rw [h1] at hpm
      dsimp only [] at hpm
      cases h2 : bufGetPiece s.board.repr pc.pos with
      | none => rw [h2] at hpm; exact Option.noConfusion hpm
      | some cap =>
        rw [h2] at hpm
        dsimp only [] at hpm
        cases h3 : bufSetPiece s.board.repr pd.pos none with
        | none => rw [h3] at hpm; exact Option.noConfusion hpm
        | some r1 =>
          rw [h3] at hpm
          dsimp only [] at hpm
          cases h4 : bufSetPiece r1 pc.pos none with
          | none => rw [h4] at hpm; exact Option.noConfusion hpm
          | some r2 =>
            rw [h4] at hpm
            dsimp only [] at hpm
            cases h5 : bufSetPiece r2 t.pos (some pawn) with
            | none => rw [h5] at hpm; exact Option.noConfusion hpm
            | some r3 =>
              rw [h5] at hpm
              dsimp only [] at hpm
              injection hpm with h'
              subst h'
              rfl
  · intro s rf rt kf kt s' pk pr r1 mi1 hpm hsm1 hk hr hw1 hb1 hw2 hb2
    unfold GameState.performMove at hpm
    simp only [Board.boardAfterMove] at hpm
    rw [hsm1] at hpm
    dsimp only [] at hpm
    cases hsm2 : simpleMove r1 rf rt with
    | none => rw [hsm2] at hpm; exact Option.noConfusion hpm
    | some rmi2 =>
      obtain ⟨r2, mi2⟩ := rmi2
      rw [hsm2] at hpm
      dsimp only [] at hpm
      injection hpm with h'
      subst h'
      show (mi1.combineComposite mi2).newEnPassantTarget = none
      have e1 : mi1.newEnPassantTarget = none :=
        simpleMove_newEp_none s.board.repr kf kt r1 mi1 pk hsm1 hk hw1 hb1
      have e2 : mi2.newEnPassantTarget = none :=
        simpleMove_newEp_none r1 rf rt r2 mi2 pr hsm2 hr hw2 hb2
      simp [MoveInfo.combineComposite, e1, e2]

/-- C5 (witness): three applied moves that are not two-square pawn
advances — the king move a1-b2 (Simple), the en-passant capture h4xg3
(EnPassant) and White's king-side castle (Castle) — each leave the
en-passant target absent. -/
theorem C5_amended_witness :
    (kingsState.performMove (.Simple ⟨0⟩ ⟨9⟩) = some kingsStateAfter ∧
     kingsState.board.getPieceAt ⟨0⟩ = some .WhiteKing ∧
     kingsStateAfter.enPassantTarget = none) ∧
    (epWitnessState.performMove (.EnPassant ⟨31⟩ ⟨30⟩ ⟨22⟩) = some epWitnessAfter ∧
     epWitnessAfter.enPassantTarget = none) ∧
    (castleWitnessState.performMove (.Castle ⟨7⟩ ⟨5⟩ ⟨4⟩ ⟨6⟩) = some castleWitnessAfter ∧
     castleWitnessAfter.enPassantTarget = none) :=
  ⟨⟨by decide, by decide,
    C5_amended_ep_lifecycle.2.1 kingsState ⟨0⟩ ⟨9⟩ .WhiteKing kingsStateAfter
      (by decide) (by decide) (by decide) (by decide)⟩,
   ⟨by decide,
    C5_amended_ep_lifecycle.2.2.1 epWitnessState ⟨31⟩ ⟨30⟩ ⟨22⟩ epWitnessAfter (by decide)⟩,
   ⟨by decide,
    C5_amended_ep_lifecycle.2.2.2 castleWitnessState ⟨7⟩ ⟨5⟩ ⟨4⟩ ⟨6⟩ castleWitnessAfter
      .WhiteKing .WhiteRook castleWitnessR1 castleWitnessMi1
      (by decide) (by decide) (by decide) (by decide)
      (by decide) (by decide) (by decide) (by decide)⟩⟩

/-- C6 (counterexample): a state parsed with half-move clock 255 (the u8
maximum), after the applied king move a1-b1 — which neither advances a pawn
nor captures — has half-move clock 0, not 255 + 1 = 256: the u8 counter
wraps. -/
theorem C6_counterexample_clock_wraps_at_255 :
    c6State.map (fun st => st.halfMoveClock) = some 255 ∧
    ((c6State.bind fun st => st.board.boardAfterMove (.Simple ⟨0⟩ ⟨1⟩)).map fun bm =>
      (bm.2.pawnAdvanced, bm.2.captured.isSome)) = some (false, false) ∧
    ((c6State.bind fun st => st.performMove (.Simple ⟨0⟩ ⟨1⟩)).map fun s' =>
      s'.halfMoveClock) = some 0 := by
  refine ⟨by decide, by decide, by decide⟩

/-- The digit emitter ignores how much fuel it is given, as long as the fuel
exceeds the number. -/
theorem natToCharsAux_fuel (n : Nat) : ∀ f1 f2 : Nat, n < f1 → n < f2 →
    natToCharsAux f1 n = natToCharsAux f2 n := by
  induction n using Nat.strong_induction_on with
  | _ n ih =>
    intro f1 f2 h1 h2
    match f1, f2 with
    | g1 + 1, g2 + 1 =>
      unfold natToCharsAux
      by_cases hn : n < 10
      · rw [if_pos hn, if_pos hn]
      · rw [if_neg hn, if_neg hn]
        have hd : n / 10 < n := Nat.div_lt_self (by omega) (by omega)
        rw [ih (n / 10) hd g1 g2 (by omega) (by omega)]

/-- The recursive unfolding of `natToChars`. -/
theorem natToChars_eq (n : Nat) :
    natToChars n =
      if n < 10 then [Char.ofNat (48 + n)]
      else natToChars (n / 10) ++ [Char.ofNat (48 + n % 10)] := by
  have h1 : natToChars n =
      (if n < 10 then [Char.ofNat (48 + n)]
       else natToCharsAux n (n / 10) ++ [Char.ofNat (48 + n % 10)]) := rfl
  rw [h1]
  by_cases hn : n < 10
  · rw [if_pos hn, if_pos hn]
  · rw [if_neg hn, if_neg hn]
    have hd : n / 10 < n := Nat.div_lt_self (by omega) (by omega)
    rw [natToCharsAux_fuel (n / 10) n (n / 10 + 1) hd (by omega)]
    rfl

/-- The code of a digit character: `Char.ofNat (48 + d)` has code 48 + d for
every digit value d. -/
theorem digit_toNat (d : Nat) (hd : d < 10) : (Char.ofNat (48 + d)).toNat = 48 + d := by
  interval_cases d <;> decide

/-- Every character of a number's decimal representation is a digit
character (code between 48 and 57). -/
theorem natToChars_digits (n : Nat) : ∀ c ∈ natToChars n,
    48 ≤ c.toNat ∧ c.toNat ≤ 57 := by
  induction n using Nat.strong_induction_on with
  | _ n ih =>
    intro c hc
    rw [natToChars_eq] at hc
    by_cases hn : n < 10
    · rw [if_pos hn] at hc
      rcases List.mem_singleton.mp hc with rfl
      rw [digit_toNat n hn]
      omega
    · rw [if_neg hn] at hc
      rcases List.mem_append.mp hc with h | h
      · exact ih (n / 10) (Nat.div_lt_self (by omega) (by omega)) c h
      · rcases List.mem_singleton.mp h with rfl
        rw [digit_toNat (n % 10) (Nat.mod_lt n (by omega))]
        omega

/-- The decimal representation is never empty. -/
theorem natToChars_ne_nil (n : Nat) : natToChars n ≠ [] := by
  rw [natToChars_eq]
  by_cases hn : n < 10
  · rw [if_pos hn]; exact List.cons_ne_nil _ _
  · rw [if_neg hn]
    intro h
    exact List.cons_ne_nil _ _ (List.append_eq_nil.mp h).2

/-- The digit-parsing loop distributes over list append. -/
theorem parseDigitsLoop_append (a : List Char) : ∀ (b : List Char) (acc : Nat),
    parseDigitsLoop (a ++ b) acc =
      (parseDigitsLoop a acc).bind fun v => parseDigitsLoop b v := by
  induction a with
  | nil => intro b acc; rfl
  | cons c rest ih =>
    intro b acc
    have l1 : parseDigitsLoop ((c :: rest) ++ b) acc =
        if 48 ≤ c.toNat ∧ c.toNat ≤ 57 then
          parseDigitsLoop (rest ++ b) (acc * 10 + (c.toNat - 48))
        else none := rfl
    have l2 : parseDigitsLoop (c :: rest) acc =
        if 48 ≤ c.toNat ∧ c.toNat ≤ 57 then
          parseDigitsLoop rest (acc * 10 + (c.toNat - 48))
        else none := rfl
    rw [l1, l2]
    by_cases hc : 48 ≤ c.toNat ∧ c.toNat ≤ 57
    · rw [if_pos hc, if_pos hc]
      exact ih b (acc * 10 + (c.toNat - 48))
    · rw [if_neg hc, if_neg hc]
      rfl

/-- Parsing the decimal representation of n with accumulator acc yields
acc shifted by the digit count plus n — the parse inverts the print. -/
theorem parseDigitsLoop_natToChars (n : Nat) : ∀ acc : Nat,
    parseDigitsLoop (natToChars n) acc =
      some (acc * 10 ^ (natToChars n).length + n) := by
  induction n using Nat.strong_induction_on with
  | _ n ih =>
    intro acc
    by_cases hn : n < 10
    · rw [natToChars_eq, if_pos hn]
      have l1 : parseDigitsLoop [Char.ofNat (48 + n)] acc =
          if 48 ≤ (Char.ofNat (48 + n)).toNat ∧ (Char.ofNat (48 + n)).toNat ≤ 57 then
            some (acc * 10 + ((Char.ofNat (48 + n)).toNat - 48))
          else none := rfl
      rw [l1, digit_toNat n hn, if_pos (by omega)]
      simp only [List.length_singleton, pow_one]
      congr 1
      omega
    · rw [natToChars_eq, if_neg hn]
      rw [parseDigitsLoop_append]
      have hd : n / 10 < n := Nat.div_lt_self (by omega) (by omega)
      have hm : n % 10 < 10 := Nat.mod_lt n (by omega)
      rw [ih (n / 10) hd acc]
      rw [Option.some_bind]
      have l1 : parseDigitsLoop [Char.ofNat (48 + n % 10)]
            (acc * 10 ^ (natToChars (n / 10)).length + n / 10) =
          if 48 ≤ (Char.ofNat (48 + n % 10)).toNat ∧ (Char.ofNat (48 + n % 10)).toNat ≤ 57 then
            some ((acc * 10 ^ (natToChars (n / 10)).length + n / 10) * 10 +
              ((Char.ofNat (48 + n % 10)).toNat - 48))
          else none := rfl
      rw [l1, digit_toNat (n % 10) hm, if_pos (by omega)]
      rw [List.length_append, List.length_singleton]
      congr 1
      rw [pow_succ]
      ring_nf
      omega

/-- Rust's unsigned parse inverts the decimal print for every value within
the type's bound. -/
theorem parseUnsigned_natToChars (bound n : Nat) (hn : n ≤ bound) :
    parseUnsigned bound (natToChars n) = some n := by
  obtain ⟨c, t, hct⟩ : ∃ c t, natToChars n = c :: t := by
    cases h : natToChars n with
    | nil => exact absurd h (natToChars_ne_nil n)
    | cons c t => exact ⟨c, t, rfl⟩
  have hcd : 48 ≤ c.toNat ∧ c.toNat ≤ 57 :=
    natToChars_digits n c (by rw [hct]; exact List.mem_cons_self c t)
  have hcne : ¬ c = '+' := by
    intro h
    rw [h] at hcd
    exact absurd hcd (by decide)
  unfold parseUnsigned
  rw [hct]
  dsimp only []
  rw [if_neg hcne]
  have hloop := parseDigitsLoop_natToChars n 0
  rw [hct] at hloop
  rw [hloop]
  dsimp only []
  rw [if_pos (by simpa using hn)]
  simp

/-- An in-bounds store through `bufSetPiece` succeeds and equals the total
store. -/
theorem bufSetPiece_of_lt (repr : List Nat) (pos : Nat) (p : Option BoardPiece)
    (h : pos / 2 < repr.length) :
    bufSetPiece repr pos p = some (bufSetPieceTotal repr pos p) := by
  simp only [bufSetPiece, bufSetPieceTotal]
  rw [if_pos h]

/-- A total store never changes the buffer length. -/
theorem bufSetPieceTotal_length (repr : List Nat) (pos : Nat) (p : Option BoardPiece) :
    (bufSetPieceTotal repr pos p).length = repr.length := by
  simp [bufSetPieceTotal]

/-- No piece letter lies in the digit range 1-8 that `parse_rank` treats as
an empty-file run. -/
theorem toFenChar_not_digit (p : BoardPiece) :
    ¬ (49 ≤ p.toFenChar.toNat ∧ p.toFenChar.toNat ≤ 56) := by
  cases p <;> decide

/-- Parsing a piece letter recovers the piece. -/
theorem tryFrom_toFenChar (p : BoardPiece) :
    BoardPiece.tryFromFenChar p.toFenChar = some p := by
  cases p <;> rfl

/-- A digit character steps the rank-parsing loop by its value. -/
theorem parseRankLoop_digit (c : Char) (rest : List Char) (buf : List Nat) (idx : Nat)
    (hc : 49 ≤ c.toNat ∧ c.toNat ≤ 56) :
    parseRankLoop (c :: rest) buf idx =
      parseRankLoop rest buf ((idx + (c.toNat - 48)) % 256) := by
  simp only [parseRankLoop]
  rw [if_pos hc]

/-- A piece letter whose store is in bounds steps the rank-parsing loop by
storing the piece and advancing the cursor. -/
theorem parseRankLoop_piece (c : Char) (p : BoardPiece) (rest : List Char)
    (buf : List Nat) (idx : Nat)
    (hc : ¬ (49 ≤ c.toNat ∧ c.toNat ≤ 56))
    (hp : BoardPiece.tryFromFenChar c = some p)
    (cells' : List Nat) (hset : bufSetPiece buf idx (some p) = some cells') :
    parseRankLoop (c :: rest) buf idx = parseRankLoop rest cells' ((idx + 1) % 256) := by
  simp only [parseRankLoop]
  rw [if_neg hc, hp]
  dsimp only []
  rw [hset]

/-- Running the rank-parsing loop over a rank's run-length encoding replays
exactly the cell writes: with cursor idx, pending-empty count n and the
remaining cells summing to file 8, the loop succeeds and produces the
buffer with those cells written from position idx + n on, ending at cursor
8. -/
theorem parseRankLoop_emitRank :
    ∀ (cl : List (Option BoardPiece)) (n idx : Nat) (buf : List Nat),
      buf.length = 4 → idx + n + cl.length = 8 →
      parseRankLoop (emitRank cl n) buf idx =
        some (.ok (writeCells buf (idx + n) cl, 8)) := by
  intro cl
  induction cl with
  | nil =>
    intro n idx buf hlen hsum
    simp only [List.length_nil, Nat.add_zero] at hsum
    cases n with
    | zero =>
      have h8 : idx = 8 := by omega
      subst h8
      rfl
    | succ k =>
      have hk : k + 1 < 10 := by omega
      rw [show emitRank [] (k + 1) = natToChars (k + 1) from rfl, natToChars_eq, if_pos hk]
      rw [parseRankLoop_digit _ [] buf idx
        (by rw [digit_toNat (k + 1) hk]; omega)]
      rw [digit_toNat (k + 1) hk]
      have hidx : (idx + (48 + (k + 1) - 48)) % 256 = 8 := by omega
      rw [hidx]
      rfl
  | cons c0 cs ih =>
    intro n idx buf hlen hsum
    cases c0 with
    | none =>
      rw [show emitRank (none :: cs) n = emitRank cs (n + 1) from rfl]
      rw [show writeCells buf (idx + n) (none :: cs) = writeCells buf (idx + n + 1) cs from rfl]
      have := ih (n + 1) idx buf hlen (by simp at hsum ⊢; omega)
      rw [show idx + (n + 1) = idx + n + 1 from by omega] at this
      exact this
    | some p =>
      have hbound : idx + n < 8 := by simp at hsum; omega
      have hset : bufSetPiece buf (idx + n) (some p) =
          some (bufSetPieceTotal buf (idx + n) (some p)) :=
        bufSetPiece_of_lt buf (idx + n) (some p) (by omega)
      have hlen' : (bufSetPieceTotal buf (idx + n) (some p)).length = 4 := by
        rw [bufSetPieceTotal_length]; exact hlen
      cases n with
      | zero =>
        rw [show emitRank (some p :: cs) 0 = p.toFenChar :: emitRank cs 0 from rfl]
        rw [Nat.add_zero] at hset ⊢
        rw [parseRankLoop_piece p.toFenChar p _ buf idx (toFenChar_not_digit p)
          (tryFrom_toFenChar p) _ hset]
        have hidx1 : (idx + 1) % 256 = idx + 1 := by omega
        rw [hidx1]
        rw [show writeCells buf idx (some p :: cs) =
          writeCells (bufSetPieceTotal buf idx (some p)) (idx + 1) cs from rfl]
        have := ih 0 (idx + 1) (bufSetPieceTotal buf idx (some p)) hlen'
          (by simp at hsum ⊢; omega)
        rw [Nat.add_zero] at this
        exact this
      | succ k =>
        have hk : k + 1 < 10 := by omega
        rw [show emitRank (some p :: cs) (k + 1) =
          natToChars (k + 1) ++ p.toFenChar :: emitRank cs 0 from rfl]
        rw [natToChars_eq, if_pos hk]
        rw [show [Char.ofNat (48 + (k + 1))] ++ p.toFenChar :: emitRank cs 0 =
          Char.ofNat (48 + (k + 1)) :: p.toFenChar :: emitRank cs 0 from rfl]
        rw [parseRankLoop_digit _ _ buf idx (by rw [digit_toNat (k + 1) hk]; omega)]
        rw [digit_toNat (k + 1) hk]
        have hidx : (idx + (48 + (k + 1) - 48)) % 256 = idx + (k + 1) := by omega
        rw [hidx]
        rw [parseRankLoop_piece p.toFenChar p _ buf (idx + (k + 1)) (toFenChar_not_digit p)
          (tryFrom_toFenChar p) _ hset]
        have hidx1 : (idx + (k + 1) + 1) % 256 = idx + (k + 1) + 1 := by omega
        rw [hidx1]
        rw [show writeCells buf (idx + (k + 1)) (some p :: cs) =
          writeCells (bufSetPieceTotal buf (idx + (k + 1)) (some p)) (idx + (k + 1) + 1) cs
          from rfl]
        have := ih 0 (idx + (k + 1) + 1) (bufSetPieceTotal buf (idx + (k + 1)) (some p)) hlen'
          (by simp at hsum ⊢; omega)
        rw [Nat.add_zero] at this
        exact this

/-- Re-encoding the two decoded nibbles of a valid byte into an empty byte
recovers the byte (checked over all 256 byte values). -/
theorem rebuildByte_ok : ∀ b : Fin 256, byteOk b.val = true → rebuildByte b.val = b.val := by
  decide

/-- Reading an index just written by `List.set` gives the written value. -/
theorem getD_set_self : ∀ (l : List Nat) (k v : Nat), k < l.length →
    (l.set k v).getD k 0 = v := by
  intro l
  induction l with
  | nil => intro k v h; cases h
  | cons x xs ih =>
    intro k v h
    cases k with
    | zero => rfl
    | succ k' => exact ih k' v (by simpa using h)

/-- Two writes to the same index collapse to the second. -/
theorem set_set_self : ∀ (l : List Nat) (k a b2 : Nat), (l.set k a).set k b2 = l.set k b2 := by
  intro l
  induction l with
  | nil => intro k a b2; rfl
  | cons x xs ih =>
    intro k a b2
    cases k with
    | zero => rfl
    | succ k' =>
      show x :: (xs.set k' a).set k' b2 = x :: xs.set k' b2
      rw [ih k' a b2]

/-- Setting an index back to the value it already holds (here 0) is the
identity. -/
theorem set_getD_self_eq : ∀ (l : List Nat) (k : Nat), l.getD k 0 = 0 → k < l.length →
    l.set k 0 = l := by
  intro l
  induction l with
  | nil => intro k _ h; cases h
  | cons x xs ih =>
    intro k h0 hk
    cases k with
    | zero =>
      have hx : x = 0 := h0
      subst hx
      rfl
    | succ k' =>
      show x :: xs.set k' 0 = x :: xs
      rw [ih k' (by simpa using h0) (by simpa using hk)]

/-- Writing the two decoded cells of a valid byte into a buffer whose k-th
byte is still empty replaces that byte with the original value: the
parser's per-byte effect. -/
theorem writeCells_byte (buf : List Nat) (pos k b : Nat) (cs : List (Option BoardPiece))
    (hpos : pos = 2 * k) (hk : k < buf.length) (h0 : buf.getD k 0 = 0)
    (hb : byteOk b = true) :
    writeCells buf pos (getPiece0 b :: getPiece1 b :: cs) =
      writeCells (buf.set k b) (pos + 2) cs := by
  subst hpos
  have hdiv : 2 * k / 2 = k := by omega
  have hmod : 2 * k % 2 = 0 := by omega
  have hdiv1 : (2 * k + 1) / 2 = k := by omega
  have hmod1 : (2 * k + 1) % 2 = 1 := by omega
  have hlt : b < 256 := by
    simp only [byteOk, Bool.and_eq_true, decide_eq_true_eq] at hb
    exact hb.1.1
  have hrb := rebuildByte_ok ⟨b, hlt⟩ hb
  simp only [Fin.val_mk] at hrb
  rw [show writeCells buf (2 * k) (getPiece0 b :: getPiece1 b :: cs) =
    writeCells
      (match getPiece1 b with
       | some q => bufSetPieceTotal
          (match getPiece0 b with
           | some p => bufSetPieceTotal buf (2 * k) (some p)
           | none => buf) (2 * k + 1) (some q)
       | none =>
          (match getPiece0 b with
           | some p => bufSetPieceTotal buf (2 * k) (some p)
           | none => buf))
      (2 * k + 2) cs from by
    cases getPiece0 b <;> cases getPiece1 b <;> rfl]
  congr 1
  unfold rebuildByte at hrb
  cases hg0 : getPiece0 b with
  | none =>
    cases hg1 : getPiece1 b with
    | none =>
      rw [hg0, hg1] at hrb
      dsimp only [] at hrb ⊢
      -- rebuilt byte is 0, so the original byte was 0; setting it back is a no-op
      rw [← hrb]
      exact (set_getD_self_eq buf k h0 hk).symm
    | some q =>
      rw [hg0, hg1] at hrb
      dsimp only [] at hrb ⊢
      simp only [bufSetPieceTotal, hdiv1, hmod1, h0]
      rw [if_neg (show ¬ (1 = 0) by omega)]
      rw [hrb]
  | some p =>
    cases hg1 : getPiece1 b with
    | none =>
      rw [hg0, hg1] at hrb
      dsimp only [] at hrb ⊢
      simp only [bufSetPieceTotal, hdiv, hmod, h0]
      rw [if_pos trivial]
      rw [hrb]
    | some q =>
      rw [hg0, hg1] at hrb
      dsimp only [] at hrb ⊢
      simp only [bufSetPieceTotal, hdiv, hmod, hdiv1, hmod1, h0]
      rw [if_pos trivial, if_neg (show ¬ (1 = 0) by omega)]
      rw [getD_set_self buf k _ hk, set_set_self]
      rw [hrb]

/-- Replaying the eight decoded cells of four valid bytes into an empty
rank buffer reconstructs the four bytes. -/
theorem writeCells_rank (b0 b1 b2 b3 : Nat)
    (h0 : byteOk b0 = true) (h1 : byteOk b1 = true) (h2 : byteOk b2 = true)
    (h3 : byteOk b3 = true) :
    writeCells [0, 0, 0, 0] 0
      [getPiece0 b0, getPiece1 b0, getPiece0 b1, getPiece1 b1,
       getPiece0 b2, getPiece1 b2, getPiece0 b3, getPiece1 b3] = [b0, b1, b2, b3] := by
  rw [writeCells_byte [0, 0, 0, 0] 0 0 b0 _ (by omega) (by decide) rfl h0]
  rw [show ([0, 0, 0, 0] : List Nat).set 0 b0 = [b0, 0, 0, 0] from rfl]
  rw [writeCells_byte [b0, 0, 0, 0] 2 1 b1 _ (by omega) (by simp) rfl h1]
  rw [show ([b0, 0, 0, 0] : List Nat).set 1 b1 = [b0, b1, 0, 0] from rfl]
  rw [writeCells_byte [b0, b1, 0, 0] 4 2 b2 _ (by omega) (by simp) rfl h2]
  rw [show ([b0, b1, 0, 0] : List Nat).set 2 b2 = [b0, b1, b2, 0] from rfl]
  rw [writeCells_byte [b0, b1, b2, 0] 6 3 b3 _ (by omega) (by simp) rfl h3]
  rw [show ([b0, b1, b2, 0] : List Nat).set 3 b3 = [b0, b1, b2, b3] from rfl]
  rfl

/-- The cells of a four-byte rank buffer in file order are the decoded
nibble pairs of its bytes. -/
theorem iterPieces_map_snd (b0 b1 b2 b3 : Nat) :
    (iterPieces [b0, b1, b2, b3]).map Prod.snd =
      [getPiece0 b0, getPiece1 b0, getPiece0 b1, getPiece1 b1,
       getPiece0 b2, getPiece1 b2, getPiece0 b3, getPiece1 b3] := rfl

/-- Parsing the run-length encoding of a valid four-byte rank buffer
reconstructs the buffer. -/
theorem parseRank_roundtrip (b0 b1 b2 b3 : Nat)
    (h0 : byteOk b0 = true) (h1 : byteOk b1 = true) (h2 : byteOk b2 = true)
    (h3 : byteOk b3 = true) :
    Board.parseRank (emitRank ((iterPieces [b0, b1, b2, b3]).map Prod.snd) 0) =
      some (.ok [b0, b1, b2, b3]) := by
  rw [iterPieces_map_snd]
  unfold Board.parseRank
  rw [parseRankLoop_emitRank
    [getPiece0 b0, getPiece1 b0, getPiece0 b1, getPiece1 b1,
     getPiece0 b2, getPiece1 b2, getPiece0 b3, getPiece1 b3] 0 0 (List.replicate 4 0)
    (by decide) (by simp)]
  dsimp only []
  rw [if_neg (by omega)]
  rw [show (List.replicate 4 0 : List Nat) = [0, 0, 0, 0] from rfl,
    show (0 + 0 : Nat) = 0 from rfl]
  rw [writeCells_rank b0 b1 b2 b3 h0 h1 h2 h3]

/-- A separator-free list splits into itself alone. -/
theorem splitOnChar_no_sep (sep : Char) :
    ∀ l : List Char, (∀ c ∈ l, c ≠ sep) → splitOnChar sep l = [l] := by
  intro l
  induction l with
  | nil => intro _; rfl
  | cons c rest ih =>
    intro h
    show (if c = sep then [] :: splitOnChar sep rest
          else
            match splitOnChar sep rest with
            | [] => [[c]]
            | g :: gs => (c :: g) :: gs) = [c :: rest]
    rw [if_neg (h c (List.mem_cons_self c rest))]
    rw [ih fun x hx => h x (List.mem_cons_of_mem c hx)]

/-- Splitting a list that begins with a separator-free prefix followed by
the separator peels off exactly that prefix. -/
theorem splitOnChar_append_sep (sep : Char) :
    ∀ (a t : List Char), (∀ c ∈ a, c ≠ sep) →
      splitOnChar sep (a ++ sep :: t) = a :: splitOnChar sep t := by
  intro a
  induction a with
  | nil =>
    intro t _
    show (if sep = sep then [] :: splitOnChar sep t
          else
            match splitOnChar sep t with
            | [] => [[sep]]
            | g :: gs => (sep :: g) :: gs) = [] :: splitOnChar sep t
    rw [if_pos rfl]
  | cons c rest ih =>
    intro t h
    show (if c = sep then [] :: splitOnChar sep (rest ++ sep :: t)
          else
            match splitOnChar sep (rest ++ sep :: t) with
            | [] => [[c]]
            | g :: gs => (c :: g) :: gs) = (c :: rest) :: splitOnChar sep t
    rw [if_neg (h c (List.mem_cons_self c rest))]
    rw [ih t fun x hx => h x (List.mem_cons_of_mem c hx)]

/-- Splitting undoes joining for a nonempty list of separator-free parts. -/
theorem splitOnChar_intercalate (sep : Char) :
    ∀ parts : List (List Char), parts ≠ [] →
      (∀ part ∈ parts, ∀ c ∈ part, c ≠ sep) →
      splitOnChar sep (intercalateChar sep parts) = parts := by
  intro parts
  induction parts with
  | nil => intro h _; exact absurd rfl h
  | cons p ps ih =>
    intro _ h
    cases ps with
    | nil =>
      show splitOnChar sep p = [p]
      exact splitOnChar_no_sep sep p (h p (List.mem_cons_self p []))
    | cons p2 ps2 =>
      show splitOnChar sep (p ++ sep :: intercalateChar sep (p2 :: ps2)) = p :: p2 :: ps2
      rw [splitOnChar_append_sep sep p _ (h p (List.mem_cons_self p _))]
      rw [ih (List.cons_ne_nil p2 ps2) fun part hpart c hc =>
        h part (List.mem_cons_of_mem p hpart) c hc]

/-- Every character emitted for a rank is a decimal digit or a piece
letter. -/
theorem emitRank_chars :
    ∀ (cl : List (Option BoardPiece)) (n : Nat), ∀ c ∈ emitRank cl n,
      (48 ≤ c.toNat ∧ c.toNat ≤ 57) ∨ ∃ p, c = BoardPiece.toFenChar p := by
  intro cl
  induction cl with
  | nil =>
    intro n c hc
    cases n with
    | zero => cases hc
    | succ k =>
      exact Or.inl (natToChars_digits (k + 1) c hc)
  | cons c0 cs ih =>
    intro n c hc
    cases c0 with
    | none => exact ih (n + 1) c hc
    | some p =>
      cases n with
      | zero =>
        rcases List.mem_cons.mp hc with rfl | hmem
        · exact Or.inr ⟨p, rfl⟩
        · exact ih 0 c hmem
      | succ k =>
        rw [show emitRank (some p :: cs) (k + 1) =
          natToChars (k + 1) ++ p.toFenChar :: emitRank cs 0 from rfl] at hc
        rcases List.mem_append.mp hc with hd | ht
        · exact Or.inl (natToChars_digits (k + 1) c hd)
        · rcases List.mem_cons.mp ht with rfl | hmem
          · exact Or.inr ⟨p, rfl⟩
          · exact ih 0 c hmem

/-- No emitted rank character is a '/' or a space. -/
theorem emitRank_no_sep (cl : List (Option BoardPiece)) (n : Nat) :
    ∀ c ∈ emitRank cl n, c ≠ '/' ∧ c ≠ ' ' := by
  intro c hc
  rcases emitRank_chars cl n c hc with hd | ⟨p, rfl⟩
  · constructor <;> (intro h; subst h; revert hd; decide)
  · cases p <;> exact ⟨by decide, by decide⟩

/-- One successful step of the rank loop of the board parser. -/
theorem parseRanksLoop_cons_ok (r : Nat) (ranks : List Nat) (p : List Char)
    (ps : List (List Char)) (acc cells : List Nat)
    (hp : Board.parseRank p = some (.ok cells)) :
    parseRanksLoop (r :: ranks) (p :: ps) acc =
      parseRanksLoop ranks ps (copyRankInto acc r cells) := by
  simp only [parseRanksLoop]
  rw [hp]

/-- Parsing the serialization of a valid board reconstructs the board
byte for byte. -/
theorem board_roundtrip (bd : Board) (hv : ValidBoard bd) :
    Board.parseFromFen bd.toFen = some (.ok bd) := by
  obtain ⟨rl⟩ := bd
  obtain ⟨hlen, hmem⟩ := hv
  have hlen0 : rl.length = 32 := hlen
  have hmem0 : ∀ x ∈ rl, byteOk x = true := hmem
  clear hlen hmem
  obtain ⟨x0, rl, rfl⟩ := List.exists_of_length_succ rl hlen0
  have hlen1 : rl.length = 31 := by simpa using hlen0
  obtain ⟨x1, rl, rfl⟩ := List.exists_of_length_succ rl hlen1
  have hlen2 : rl.length = 30 := by simpa using hlen1
  obtain ⟨x2, rl, rfl⟩ := List.exists_of_length_succ rl hlen2
  have hlen3 : rl.length = 29 := by simpa using hlen2
  obtain ⟨x3, rl, rfl⟩ := List.exists_of_length_succ rl hlen3
  have hlen4 : rl.length = 28 := by simpa using hlen3
  obtain ⟨x4, rl, rfl⟩ := List.exists_of_length_succ rl hlen4
  have hlen5 : rl.length = 27 := by simpa using hlen4
  obtain ⟨x5, rl, rfl⟩ := List.exists_of_length_succ rl hlen5
  have hlen6 : rl.length = 26 := by simpa using hlen5
  obtain ⟨x6, rl, rfl⟩ := List.exists_of_length_succ rl hlen6
  have hlen7 : rl.length = 25 := by simpa using hlen6
  obtain ⟨x7, rl, rfl⟩ := List.exists_of_length_succ rl hlen7
  have hlen8 : rl.length = 24 := by simpa using hlen7
  obtain ⟨x8, rl, rfl⟩ := List.exists_of_length_succ rl hlen8
  have hlen9 : rl.length = 23 := by simpa using hlen8
  obtain ⟨x9, rl, rfl⟩ := List.exists_of_length_succ rl hlen9
  have hlen10 : rl.length = 22 := by simpa using hlen9
  obtain ⟨x10, rl, rfl⟩ := List.exists_of_length_succ rl hlen10
  have hlen11 : rl.length = 21 := by simpa using hlen10
  obtain ⟨x11, rl, rfl⟩ := List.exists_of_length_succ rl hlen11
  have hlen12 : rl.length = 20 := by simpa using hlen11
  obtain ⟨x12, rl, rfl⟩ := List.exists_of_length_succ rl hlen12
  have hlen13 : rl.length = 19 := by simpa using hlen12
  obtain ⟨x13, rl, rfl⟩ := List.exists_of_length_succ rl hlen13
  have hlen14 : rl.length = 18 := by simpa using hlen13
  obtain ⟨x14, rl, rfl⟩ := List.exists_of_length_succ rl hlen14
  have hlen15 : rl.length = 17 := by simpa using hlen14
  obtain ⟨x15, rl, rfl⟩ := List.exists_of_length_succ rl hlen15
  have hlen16 : rl.length = 16 := by simpa using hlen15
  obtain ⟨x16, rl, rfl⟩ := List.exists_of_length_succ rl hlen16
  have hlen17 : rl.length = 15 := by simpa using hlen16
  obtain ⟨x17, rl, rfl⟩ := List.exists_of_length_succ rl hlen17
  have hlen18 : rl.length = 14 := by simpa using hlen17
  obtain ⟨x18, rl, rfl⟩ := List.exists_of_length_succ rl hlen18
  have hlen19 : rl.length = 13 := by simpa using hlen18
  obtain ⟨x19, rl, rfl⟩ := List.exists_of_length_succ rl hlen19
  have hlen20 : rl.length = 12 := by simpa using hlen19
  obtain ⟨x20, rl, rfl⟩ := List.exists_of_length_succ rl hlen20
  have hlen21 : rl.length = 11 := by simpa using hlen20
  obtain ⟨x21, rl, rfl⟩ := List.exists_of_length_succ rl hlen21
  have hlen22 : rl.length = 10 := by simpa using hlen21
  obtain ⟨x22, rl, rfl⟩ := List.exists_of_length_succ rl hlen22
  have hlen23 : rl.length = 9 := by simpa using hlen22
  obtain ⟨x23, rl, rfl⟩ := List.exists_of_length_succ rl hlen23
  have hlen24 : rl.length = 8 := by simpa using hlen23
  obtain ⟨x24, rl, rfl⟩ := List.exists_of_length_succ rl hlen24
  have hlen25 : rl.length = 7 := by simpa using hlen24
  obtain ⟨x25, rl, rfl⟩ := List.exists_of_length_succ rl hlen25
  have hlen26 : rl.length = 6 := by simpa using hlen25
  obtain ⟨x26, rl, rfl⟩ := List.exists_of_length_succ rl hlen26
  have hlen27 : rl.length = 5 := by simpa using hlen26
  obtain ⟨x27, rl, rfl⟩ := List.exists_of_length_succ rl hlen27
  have hlen28 : rl.length = 4 := by simpa using hlen27
  obtain ⟨x28, rl, rfl⟩ := List.exists_of_length_succ rl hlen28
  have hlen29 : rl.length = 3 := by simpa using hlen28
  obtain ⟨x29, rl, rfl⟩ := List.exists_of_length_succ rl hlen29
  have hlen30 : rl.length = 2 := by simpa using hlen29
  obtain ⟨x30, rl, rfl⟩ := List.exists_of_length_succ rl hlen30
  have hlen31 : rl.length = 1 := by simpa using hlen30
  obtain ⟨x31, rl, rfl⟩ := List.exists_of_length_succ rl hlen31
  have hlen32 : rl.length = 0 := by simpa using hlen31
  have hnil : rl = [] := List.length_eq_zero.mp hlen32
  subst hnil
  have hb0 : byteOk x0 = true := hmem0 x0 (by simp)
  have hb1 : byteOk x1 = true := hmem0 x1 (by simp)
  have hb2 : byteOk x2 = true := hmem0 x2 (by simp)
  have hb3 : byteOk x3 = true := hmem0 x3 (by simp)
  have hb4 : byteOk x4 = true := hmem0 x4 (by simp)
  have hb5 : byteOk x5 = true := hmem0 x5 (by simp)
  have hb6 : byteOk x6 = true := hmem0 x6 (by simp)
  have hb7 : byteOk x7 = true := hmem0 x7 (by simp)
  have hb8 : byteOk x8 = true := hmem0 x8 (by simp)
  have hb9 : byteOk x9 = true := hmem0 x9 (by simp)
  have hb10 : byteOk x10 = true := hmem0 x10 (by simp)
  have hb11 : byteOk x11 = true := hmem0 x11 (by simp)
  have hb12 : byteOk x12 = true := hmem0 x12 (by simp)
  have hb13 : byteOk x13 = true := hmem0 x13 (by simp)
  have hb14 : byteOk x14 = true := hmem0 x14 (by simp)
  have hb15 : byteOk x15 = true := hmem0 x15 (by simp)
  have hb16 : byteOk x16 = true := hmem0 x16 (by simp)
  have hb17 : byteOk x17 = true := hmem0 x17 (by simp)
  have hb18 : byteOk x18 = true := hmem0 x18 (by simp)
  have hb19 : byteOk x19 = true := hmem0 x19 (by simp)
  have hb20 : byteOk x20 = true := hmem0 x20 (by simp)
  have hb21 : byteOk x21 = true := hmem0 x21 (by simp)
  have hb22 : byteOk x22 = true := hmem0 x22 (by simp)
  have hb23 : byteOk x23 = true := hmem0 x23 (by simp)
  have hb24 : byteOk x24 = true := hmem0 x24 (by simp)
  have hb25 : byteOk x25 = true := hmem0 x25 (by simp)
  have hb26 : byteOk x26 = true := hmem0 x26 (by simp)
  have hb27 : byteOk x27 = true := hmem0 x27 (by simp)
  have hb28 : byteOk x28 = true := hmem0 x28 (by simp)
  have hb29 : byteOk x29 = true := hmem0 x29 (by simp)
  have hb30 : byteOk x30 = true := hmem0 x30 (by simp)
  have hb31 : byteOk x31 = true := hmem0 x31 (by simp)
  have hp7 := parseRank_roundtrip x28 x29 x30 x31 hb28 hb29 hb30 hb31
  have hp6 := parseRank_roundtrip x24 x25 x26 x27 hb24 hb25 hb26 hb27
  have hp5 := parseRank_roundtrip x20 x21 x22 x23 hb20 hb21 hb22 hb23
  have hp4 := parseRank_roundtrip x16 x17 x18 x19 hb16 hb17 hb18 hb19
  have hp3 := parseRank_roundtrip x12 x13 x14 x15 hb12 hb13 hb14 hb15
  have hp2 := parseRank_roundtrip x8 x9 x10 x11 hb8 hb9 hb10 hb11
  have hp1 := parseRank_roundtrip x4 x5 x6 x7 hb4 hb5 hb6 hb7
  have hp0 := parseRank_roundtrip x0 x1 x2 x3 hb0 hb1 hb2 hb3
  have hfen : Board.toFen ⟨[x0, x1, x2, x3, x4, x5, x6, x7, x8, x9, x10, x11, x12, x13, x14, x15, x16, x17, x18, x19, x20, x21, x22, x23, x24, x25, x26, x27, x28, x29, x30, x31]⟩ =
      intercalateChar '/'
      [emitRank ((iterPieces [x28, x29, x30, x31]).map Prod.snd) 0,
      emitRank ((iterPieces [x24, x25, x26, x27]).map Prod.snd) 0,
      emitRank ((iterPieces [x20, x21, x22, x23]).map Prod.snd) 0,
      emitRank ((iterPieces [x16, x17, x18, x19]).map Prod.snd) 0,
      emitRank ((iterPieces [x12, x13, x14, x15]).map Prod.snd) 0,
      emitRank ((iterPieces [x8, x9, x10, x11]).map Prod.snd) 0,
      emitRank ((iterPieces [x4, x5, x6, x7]).map Prod.snd) 0,
      emitRank ((iterPieces [x0, x1, x2, x3]).map Prod.snd) 0] := rfl
  unfold Board.parseFromFen
  rw [hfen]
  rw [splitOnChar_intercalate '/' _ (by simp) (by
    intro part hpart c hc
    simp only [List.mem_cons, List.not_mem_nil, or_false] at hpart
    rcases hpart with rfl | rfl | rfl | rfl | rfl | rfl | rfl | rfl <;>
      exact (emitRank_no_sep _ 0 c hc).1)]
  rw [show ((List.range 8).reverse : List Nat) = [7, 6, 5, 4, 3, 2, 1, 0] from rfl]
  rw [parseRanksLoop_cons_ok 7 _ _ _ _ _ hp7]
  rw [parseRanksLoop_cons_ok 6 _ _ _ _ _ hp6]
  rw [parseRanksLoop_cons_ok 5 _ _ _ _ _ hp5]
  rw [parseRanksLoop_cons_ok 4 _ _ _ _ _ hp4]
  rw [parseRanksLoop_cons_ok 3 _ _ _ _ _ hp3]
  rw [parseRanksLoop_cons_ok 2 _ _ _ _ _ hp2]
  rw [parseRanksLoop_cons_ok 1 _ _ _ _ _ hp1]
  rw [parseRanksLoop_cons_ok 0 _ _ _ _ _ hp0]
  rfl

/-- A character of a joined list is the separator or comes from one of the
parts. -/
theorem intercalateChar_mem (sep : Char) :
    ∀ (parts : List (List Char)) (c : Char), c ∈ intercalateChar sep parts →
      c = sep ∨ ∃ part ∈ parts, c ∈ part := by
  intro parts
  induction parts with
  | nil => intro c hc; cases hc
  | cons p ps ih =>
    intro c hc
    cases ps with
    | nil => exact Or.inr ⟨p, List.mem_cons_self p [], hc⟩
    | cons p2 ps2 =>
      rw [show intercalateChar sep (p :: p2 :: ps2) =
        p ++ sep :: intercalateChar sep (p2 :: ps2) from rfl] at hc
      rcases List.mem_append.mp hc with hp | hrest
      · exact Or.inr ⟨p, List.mem_cons_self p _, hp⟩
      · rcases List.mem_cons.mp hrest with rfl | htail
        · exact Or.inl rfl
        · rcases ih c htail with h | ⟨part, hpart, hcp⟩
          · exact Or.inl h
          · exact Or.inr ⟨part, List.mem_cons_of_mem p hpart, hcp⟩

/-- The serialized board field contains no space. -/
theorem space_not_mem_board (bd : Board) : ' ' ∉ bd.toFen := by
  intro hc
  unfold Board.toFen at hc
  rcases intercalateChar_mem '/' _ ' ' hc with h | ⟨part, hpart, hcp⟩
  · revert h; decide
  · rcases List.mem_map.mp hpart with ⟨r, _, rfl⟩
    exact (emitRank_no_sep _ 0 ' ' hcp).2 rfl

/-- A column letter is never a space (nor any separator). -/
theorem columnChar_ne_space (n : Nat) : columnChar n ≠ ' ' := by
  unfold columnChar
  split <;> decide

/-- The serialized en-passant square contains no space. -/
theorem space_not_mem_ep (i : BoardIndex) : ' ' ∉ boardIndexToChars i := by
  intro hc
  rcases List.mem_cons.mp hc with h | h
  · exact columnChar_ne_space i.file h.symm
  · have := natToChars_digits i.rank ' ' h
    revert this; decide

/-- The serialized castle-rights field contains no space. -/
theorem space_not_mem_rights (cr : Nat) : ' ' ∉ rightsToChars cr := by
  unfold rightsToChars
  split_ifs <;> decide

/-- A decimal representation contains no space. -/
theorem space_not_mem_nat (n : Nat) : ∀ c ∈ natToChars n, c ≠ ' ' := by
  intro c hc heq
  have := natToChars_digits n c hc
  rw [heq] at this
  revert this
  decide

/-- Serializing then parsing any 4-bit rights value is the identity
(checked over all 16 values). -/
theorem rights_roundtrip : ∀ r : Fin 16,
    CastleRights.rightsFromFenStr (rightsToChars r.val) = some r.val := by
  decide

/-- Serializing then parsing any in-range en-passant square is the identity
(checked over all 64 squares). -/
theorem ep_roundtrip : ∀ p : Fin 64,
    EnPassantTarget.fromFen (boardIndexToChars ⟨p.val⟩) = some ⟨p.val⟩ := by
  decide

/-- Parsing the serialization of any valid game state reconstructs the
state exactly — the serializer's output is always in the (amended)
canonical form and the codec round-trips on it. -/
theorem gameState_roundtrip :
    ∀ s : GameState, ValidState s → GameState.parseFromFen s.toFen = some (.ok s) := by
  intro s hval
  obtain ⟨bd, nm, cr, ept, clk, cnt⟩ := s
  obtain ⟨hvb0, hcr0, hep0, hclk0, hcnt0⟩ := hval
  have hvb : ValidBoard bd := hvb0
  have hcr : cr < 16 := hcr0
  have hclk : clk ≤ 255 := hclk0
  have hcnt : cnt ≤ 65535 := hcnt0
  cases nm with
  | White =>
    cases ept with
    | none =>
      have htf : GameState.toFen ⟨bd, .White, cr, none, clk, cnt⟩ =
          bd.toFen ++ ' ' :: ('w' :: ' ' :: (rightsToChars cr ++ ' ' :: ('-' :: ' ' :: (natToChars clk ++ ' ' :: natToChars cnt)))) := by
        show bd.toFen ++ [' ', 'w', ' '] ++ rightsToChars cr ++ [' '] ++ ['-'] ++ [' '] ++
            natToChars clk ++ [' '] ++ natToChars cnt = _
        simp [List.append_assoc]
      rw [htf]
      unfold GameState.parseFromFen
      rw [splitOnChar_append_sep ' ' bd.toFen _ (fun c hc heq => space_not_mem_board bd (heq ▸ hc))]
      rw [show ('w' :: ' ' :: (rightsToChars cr ++ ' ' :: ('-' :: ' ' :: (natToChars clk ++ ' ' :: natToChars cnt))) : List Char) =
        ['w'] ++ ' ' :: (rightsToChars cr ++ ' ' :: ('-' :: ' ' :: (natToChars clk ++ ' ' :: natToChars cnt))) from rfl]
      rw [splitOnChar_append_sep ' ' ['w'] _ (by decide)]
      rw [splitOnChar_append_sep ' ' (rightsToChars cr) _ (fun c hc heq => space_not_mem_rights cr (heq ▸ hc))]
      rw [show ('-' :: ' ' :: (natToChars clk ++ ' ' :: natToChars cnt) : List Char) = ['-'] ++ ' ' :: (natToChars clk ++ ' ' :: natToChars cnt) from rfl]
      rw [splitOnChar_append_sep ' ' ['-'] _ (by decide)]
      rw [splitOnChar_append_sep ' ' (natToChars clk) _ (space_not_mem_nat clk)]
      rw [splitOnChar_no_sep ' ' (natToChars cnt) (space_not_mem_nat cnt)]
      dsimp only []
      rw [board_roundtrip bd hvb]
      dsimp only []
      rw [if_pos rfl]
      dsimp only []
      rw [show CastleRights.rightsFromFenStr (rightsToChars cr) = some cr from rights_roundtrip ⟨cr, hcr⟩]
      dsimp only []
      rw [parseUnsigned_natToChars 255 clk hclk]
      dsimp only []
      rw [parseUnsigned_natToChars 65535 cnt hcnt]
      dsimp only []
      rfl
    | some e =>
      have hep : e.pos < 64 := hep0
      have htf : GameState.toFen ⟨bd, .White, cr, some e, clk, cnt⟩ =
          bd.toFen ++ ' ' :: ('w' :: ' ' :: (rightsToChars cr ++ ' ' :: (boardIndexToChars e ++ ' ' :: (natToChars clk ++ ' ' :: natToChars cnt)))) := by
        show bd.toFen ++ [' ', 'w', ' '] ++ rightsToChars cr ++ [' '] ++ boardIndexToChars e ++ [' '] ++
            natToChars clk ++ [' '] ++ natToChars cnt = _
        simp [List.append_assoc]
      rw [htf]
      unfold GameState.parseFromFen
      rw [splitOnChar_append_sep ' ' bd.toFen _ (fun c hc heq => space_not_mem_board bd (heq ▸ hc))]
      rw [show ('w' :: ' ' :: (rightsToChars cr ++ ' ' :: (boardIndexToChars e ++ ' ' :: (natToChars clk ++ ' ' :: natToChars cnt))) : List Char) =
        ['w'] ++ ' ' :: (rightsToChars cr ++ ' ' :: (boardIndexToChars e ++ ' ' :: (natToChars clk ++ ' ' :: natToChars cnt))) from rfl]
      rw [splitOnChar_append_sep ' ' ['w'] _ (by decide)]
      rw [splitOnChar_append_sep ' ' (rightsToChars cr) _ (fun c hc heq => space_not_mem_rights cr (heq ▸ hc))]
      rw [splitOnChar_append_sep ' ' (boardIndexToChars e) _ (fun c hc heq => space_not_mem_ep e (heq ▸ hc))]
      rw [splitOnChar_append_sep ' ' (natToChars clk) _ (space_not_mem_nat clk)]
      rw [splitOnChar_no_sep ' ' (natToChars cnt) (space_not_mem_nat cnt)]
      dsimp only []
      rw [board_roundtrip bd hvb]
      dsimp only []
      rw [if_pos rfl]
      dsimp only []
      rw [show CastleRights.rightsFromFenStr (rightsToChars cr) = some cr from rights_roundtrip ⟨cr, hcr⟩]
      dsimp only []
      rw [show EnPassantTarget.fromFen (boardIndexToChars e) = some e from ep_roundtrip ⟨e.pos, hep⟩]
      rw [parseUnsigned_natToChars 255 clk hclk]
      try dsimp only []
      try rw [parseUnsigned_natToChars 65535 cnt hcnt]
      try dsimp only []
      try rfl
  | Black =>
    cases ept with
    | none =>
      have htf : GameState.toFen ⟨bd, .Black, cr, none, clk, cnt⟩ =
          bd.toFen ++ ' ' :: ('b' :: ' ' :: (rightsToChars cr ++ ' ' :: ('-' :: ' ' :: (natToChars clk ++ ' ' :: natToChars cnt)))) := by
        show bd.toFen ++ [' ', 'b', ' '] ++ rightsToChars cr ++ [' '] ++ ['-'] ++ [' '] ++
            natToChars clk ++ [' '] ++ natToChars cnt = _
        simp [List.append_assoc]
      rw [htf]
      unfold GameState.parseFromFen
      rw [splitOnChar_append_sep ' ' bd.toFen _ (fun c hc heq => space_not_mem_board bd (heq ▸ hc))]
      rw [show ('b' :: ' ' :: (rightsToChars cr ++ ' ' :: ('-' :: ' ' :: (natToChars clk ++ ' ' :: natToChars cnt))) : List Char) =
        ['b'] ++ ' ' :: (rightsToChars cr ++ ' ' :: ('-' :: ' ' :: (natToChars clk ++ ' ' :: natToChars cnt))) from rfl]
      rw [splitOnChar_append_sep ' ' ['b'] _ (by decide)]
      rw [splitOnChar_append_sep ' ' (rightsToChars cr) _ (fun c hc heq => space_not_mem_rights cr (heq ▸ hc))]
      rw [show ('-' :: ' ' :: (natToChars clk ++ ' ' :: natToChars cnt) : List Char) = ['-'] ++ ' ' :: (natToChars clk ++ ' ' :: natToChars cnt) from rfl]
      rw [splitOnChar_append_sep ' ' ['-'] _ (by decide)]
      rw [splitOnChar_append_sep ' ' (natToChars clk) _ (space_not_mem_nat clk)]
      rw [splitOnChar_no_sep ' ' (natToChars cnt) (space_not_mem_nat cnt)]
      dsimp only []
      rw [board_roundtrip bd hvb]
      dsimp only []
      rw [if_neg (show ¬ ((['b'] : List Char) = ['w']) by decide), if_pos rfl]
      dsimp only []
      rw [show CastleRights.rightsFromFenStr (rightsToChars cr) = some cr from rights_roundtrip ⟨cr, hcr⟩]
      dsimp only []
      rw [parseUnsigned_natToChars 255 clk hclk]
      dsimp only []
      rw [parseUnsigned_natToChars 65535 cnt hcnt]
      dsimp only []
      rfl
    | some e =>
      have hep : e.pos < 64 := hep0
      have htf : GameState.toFen ⟨bd, .Black, cr, some e, clk, cnt⟩ =
          bd.toFen ++ ' ' :: ('b' :: ' ' :: (rightsToChars cr ++ ' ' :: (boardIndexToChars e ++ ' ' :: (natToChars clk ++ ' ' :: natToChars cnt)))) := by
        show bd.toFen ++ [' ', 'b', ' '] ++ rightsToChars cr ++ [' '] ++ boardIndexToChars e ++ [' '] ++
            natToChars clk ++ [' '] ++ natToChars cnt = _
        simp [List.append_assoc]
      rw [htf]
      unfold GameState.parseFromFen
      rw [splitOnChar_append_sep ' ' bd.toFen _ (fun c hc heq => space_not_mem_board bd (heq ▸ hc))]
      rw [show ('b' :: ' ' :: (rightsToChars cr ++ ' ' :: (boardIndexToChars e ++ ' ' :: (natToChars clk ++ ' ' :: natToChars cnt))) : List Char) =
        ['b'] ++ ' ' :: (rightsToChars cr ++ ' ' :: (boardIndexToChars e ++ ' ' :: (natToChars clk ++ ' ' :: natToChars cnt))) from rfl]
      rw [splitOnChar_append_sep ' ' ['b'] _ (by decide)]
      rw [splitOnChar_append_sep ' ' (rightsToChars cr) _ (fun c hc heq => space_not_mem_rights cr (heq ▸ hc))]
      rw [splitOnChar_append_sep ' ' (boardIndexToChars e) _ (fun c hc heq => space_not_mem_ep e (heq ▸ hc))]
      rw [splitOnChar_append_sep ' ' (natToChars clk) _ (space_not_mem_nat clk)]
      rw [splitOnChar_no_sep ' ' (natToChars cnt) (space_not_mem_nat cnt)]
      dsimp only []
      rw [board_roundtrip bd hvb]
      dsimp only []
      rw [if_neg (show ¬ ((['b'] : List Char) = ['w']) by decide), if_pos rfl]
      dsimp only []
      rw [show CastleRights.rightsFromFenStr (rightsToChars cr) = some cr from rights_roundtrip ⟨cr, hcr⟩]
      dsimp only []
      rw [show EnPassantTarget.fromFen (boardIndexToChars e) = some e from ep_roundtrip ⟨e.pos, hep⟩]
      rw [parseUnsigned_natToChars 255 clk hclk]
      try dsimp only []
      try rw [parseUnsigned_natToChars 65535 cnt hcnt]
      try dsimp only []
      try rfl

set_option maxHeartbeats 2000000 in
/-- C4 (amended): for every position description in canonical form — as
amended by the counterexample, the serializer's exact format, which writes
the en-passant square with an uppercase file letter (`CanonicalFen`) —
parsing it and then serializing the resulting game state reproduces the
input text exactly, character for character. -/
theorem C4_canonical_roundtrip :
    ∀ (cs : List Char) (st : GameState),
      CanonicalFen cs → GameState.parseFromFen cs = some (.ok st) →
      st.toFen = cs := by
  intro cs st hcan hparse
  obtain ⟨s0, hval, rfl⟩ := hcan
  rw [gameState_roundtrip s0 hval] at hparse
  injection hparse with h'
  injection h' with h''
  rw [← h'']

/-- C4 (witness): the canonical description "k7/8/8/8/8/8/8/K7 w - - 0 1"
parses to the two-kings state, and serializing it back reproduces the
input. -/
theorem C4_canonical_roundtrip_witness :
    CanonicalFen (("k7/8/8/8/8/8/8/K7 w - - 0 1").data) ∧
    GameState.parseFromFen (("k7/8/8/8/8/8/8/K7 w - - 0 1").data) =
      some (.ok c4WitnessState) ∧
    c4WitnessState.toFen = ("k7/8/8/8/8/8/8/K7 w - - 0 1").data :=
  ⟨⟨c4WitnessState, ⟨⟨by decide, by decide⟩, by decide, by trivial, by decide, by decide⟩,
    by decide⟩,
   by decide,
   C4_canonical_roundtrip _ c4WitnessState
     ⟨c4WitnessState, ⟨⟨by decide, by decide⟩, by decide, by trivial, by decide, by decide⟩,
      by decide⟩
     (by decide)⟩

end Knix
